import Mathlib

/-!
Verification development for the check orchestration engine of bufplugin-go.

The Go sources are shallowly embedded: machine integers become `Int`
(no comparison here can overflow, so no wrap-around modelling is needed),
Go slices become `List`, `nil`-able interface values become `Option`,
fallible functions return `Except`, and the mutable `multiResponseWriter`
becomes explicit state passing.  Each definition names the Go function or
type it embeds.
-/

namespace BufCheck

/-- Embeds Go `strings.Compare`.  Go compares byte-wise; UTF-8 byte order
coincides with code-point order, which is the `String` order used here. -/
def stringsCompare (one two : String) : Int :=
  if one < two then -1 else if two < one then 1 else 0

/-- Embeds `intCompare` from check/compare.go. -/
def intCompare (one two : Int) : Int :=
  if one < two then -1 else if one > two then 1 else 0

/-- Embeds Go `slices.Compare` / `slices.CompareFunc`: lexicographic
comparison, a proper prefix compares less. -/
def slicesCompareWith {α : Type} (cmp : α → α → Int) : List α → List α → Int
  | [], [] => 0
  | [], _ :: _ => -1
  | _ :: _, [] => 1
  | a :: as, b :: bs =>
    let c := cmp a b
    if c ≠ 0 then c else slicesCompareWith cmp as bs

/-- Embeds `protoreflect.SourceLocation` (the fields read by the check
package: path, span, and comments). -/
structure SourceLocation where
  path : List Int
  startLine : Int
  startColumn : Int
  endLine : Int
  endColumn : Int
  leadingComments : String
  trailingComments : String
  leadingDetachedComments : List String
deriving DecidableEq

/-- The zero `protoreflect.SourceLocation` value. -/
def zeroSourceLocation : SourceLocation :=
  ⟨[], 0, 0, 0, 0, "", "", []⟩

/-- Embeds `descriptor.fileLocation`: a FileDescriptor (represented by its
path, the only field the check package reads from it) plus a
`protoreflect.SourceLocation`. -/
structure FileLocation where
  filePath : String
  sourceLocation : SourceLocation
deriving DecidableEq

def FileLocation.StartLine (l : FileLocation) : Int :=
  l.sourceLocation.startLine

def FileLocation.StartColumn (l : FileLocation) : Int :=
  l.sourceLocation.startColumn

def FileLocation.EndLine (l : FileLocation) : Int :=
  l.sourceLocation.endLine

def FileLocation.EndColumn (l : FileLocation) : Int :=
  l.sourceLocation.endColumn

def FileLocation.LeadingComments (l : FileLocation) : String :=
  l.sourceLocation.leadingComments

def FileLocation.TrailingComments (l : FileLocation) : String :=
  l.sourceLocation.trailingComments

def FileLocation.unclonedSourcePath (l : FileLocation) : List Int :=
  l.sourceLocation.path

def FileLocation.unclonedLeadingDetachedComments (l : FileLocation) : List String :=
  l.sourceLocation.leadingDetachedComments

/-- Embeds the non-nil branch of `CompareLocations` from check/compare.go:
file path, start line, start column, end line, end column, source path,
leading comments, trailing comments, leading detached comments. -/
def compareFileLocations (one two : FileLocation) : Int :=
  let c := stringsCompare one.filePath two.filePath
  if c ≠ 0 then c else
  let c := intCompare one.StartLine two.StartLine
  if c ≠ 0 then c else
  let c := intCompare one.StartColumn two.StartColumn
  if c ≠ 0 then c else
  let c := intCompare one.EndLine two.EndLine
  if c ≠ 0 then c else
  let c := intCompare one.EndColumn two.EndColumn
  if c ≠ 0 then c else
  let c := slicesCompareWith intCompare one.unclonedSourcePath two.unclonedSourcePath
  if c ≠ 0 then c else
  let c := stringsCompare one.LeadingComments two.LeadingComments
  if c ≠ 0 then c else
  let c := stringsCompare one.TrailingComments two.TrailingComments
  if c ≠ 0 then c else
  slicesCompareWith stringsCompare one.unclonedLeadingDetachedComments two.unclonedLeadingDetachedComments

/-- Embeds `CompareLocations` from check/compare.go, `nil` interface values
included. -/
def CompareLocations (one two : Option FileLocation) : Int :=
  match one, two with
  | none, none => 0
  | none, some _ => -1
  | some _, none => 1
  | some one, some two => compareFileLocations one two

/-- Embeds the `check.annotation` struct (rule ID, message, optional
location, optional against-location). -/
structure AnnotationM where
  ruleID : String
  message : String
  location : Option FileLocation
  againstLocation : Option FileLocation
deriving DecidableEq

/-- Embeds the non-nil branch of `CompareAnnotations` from check/compare.go. -/
def compareAnnotationValues (one two : AnnotationM) : Int :=
  let c := stringsCompare one.ruleID two.ruleID
  if c ≠ 0 then c else
  let c := CompareLocations one.location two.location
  if c ≠ 0 then c else
  let c := CompareLocations one.againstLocation two.againstLocation
  if c ≠ 0 then c else
  stringsCompare one.message two.message

/-- Embeds `CompareAnnotations` from check/compare.go, `nil` interface
values included. -/
def CompareAnnotations (one two : Option AnnotationM) : Int :=
  match one, two with
  | none, none => 0
  | none, some _ => -1
  | some _, none => 1
  | some one, some two => compareAnnotationValues one two

/-- A three-way comparator that induces a linear order: zero exactly on
equal arguments, sign-antisymmetric, and transitive on the induced `≤`. -/
structure IsLawfulCmp {α : Type} (cmp : α → α → Int) : Prop where
  eq_iff : ∀ a b, cmp a b = 0 ↔ a = b
  flip : ∀ a b, cmp a b = -(cmp b a)
  cle_trans : ∀ a b c, cmp a b ≤ 0 → cmp b c ≤ 0 → cmp a c ≤ 0

/-- Lexicographic combination of two comparators on a pair, the shape shared
by every comparison chain in check/compare.go. -/
def pairCmp {α β : Type} (c1 : α → α → Int) (c2 : β → β → Int)
    (x y : α × β) : Int :=
  let c := c1 x.1 y.1
  if c ≠ 0 then c else c2 x.2 y.2

/-- Lift a comparator to `Option`, `none` first, the shape of the `nil`
checks opening every comparison in check/compare.go. -/
def optCmp {α : Type} (cmp : α → α → Int) : Option α → Option α → Int
  | none, none => 0
  | none, some _ => -1
  | some _, none => 1
  | some a, some b => cmp a b

/-- The tuple of fields `compareFileLocations` inspects, in order. -/
def locKey (l : FileLocation) :
    String × Int × Int × Int × Int × List Int × String × String × List String :=
  ⟨l.filePath, l.StartLine, l.StartColumn, l.EndLine, l.EndColumn,
    l.unclonedSourcePath, l.LeadingComments, l.TrailingComments,
    l.unclonedLeadingDetachedComments⟩

def locKeyCmp :
    String × Int × Int × Int × Int × List Int × String × String × List String →
    String × Int × Int × Int × Int × List Int × String × String × List String → Int :=
  pairCmp stringsCompare (pairCmp intCompare (pairCmp intCompare (pairCmp intCompare
    (pairCmp intCompare (pairCmp (slicesCompareWith intCompare)
      (pairCmp stringsCompare (pairCmp stringsCompare
        (slicesCompareWith stringsCompare))))))))

/-- The tuple of fields `compareAnnotationValues` inspects, in order. -/
def annKey (a : AnnotationM) :
    String × Option FileLocation × Option FileLocation × String :=
  ⟨a.ruleID, a.location, a.againstLocation, a.message⟩

def annKeyCmp :
    String × Option FileLocation × Option FileLocation × String →
    String × Option FileLocation × Option FileLocation × String → Int :=
  pairCmp stringsCompare (pairCmp CompareLocations
    (pairCmp CompareLocations stringsCompare))

/-- The order `sortAnnotations` sorts by: `CompareAnnotations` at most zero
(Go sorts with the strict form `CompareAnnotations < 0`; the induced weak
order is this one). -/
def annLE (a b : AnnotationM) : Prop :=
  CompareAnnotations (some a) (some b) ≤ 0

instance : DecidableRel annLE :=
  fun a b => inferInstanceAs (Decidable (CompareAnnotations (some a) (some b) ≤ 0))

/-- Embeds `sortAnnotations` from check/annotation.go.  Go uses the unstable
`sort.Slice` with `CompareAnnotations < 0`; since `CompareAnnotations` is a
total, antisymmetric order (proved above), the sorted permutation of any
input is unique, so any correct sort — modelled here by insertion sort —
produces the same list. -/
def sortAnnotations (annotations : List AnnotationM) : List AnnotationM :=
  List.insertionSort annLE annotations

/-- Embeds the `check.response` struct. -/
structure Response where
  annotations : List AnnotationM
deriving DecidableEq

/-- Embeds `newResponse` from check/response.go: sorts the annotations.
(The Go function also returns an error value, which is always nil.) -/
def newResponse (annotations : List AnnotationM) : Response :=
  ⟨sortAnnotations annotations⟩

/-- Modelled from the spec: the location order as the claim states it —
"file path, start line, start column, end line, end column, source path,
leading comments, trailing comments" — which, unlike the code, stops at the
trailing comments (no leading-detached-comments tiebreaker). -/
def compareFileLocationsBySpec (one two : FileLocation) : Int :=
  let c := stringsCompare one.filePath two.filePath
  if c ≠ 0 then c else
  let c := intCompare one.StartLine two.StartLine
  if c ≠ 0 then c else
  let c := intCompare one.StartColumn two.StartColumn
  if c ≠ 0 then c else
  let c := intCompare one.EndLine two.EndLine
  if c ≠ 0 then c else
  let c := intCompare one.EndColumn two.EndColumn
  if c ≠ 0 then c else
  let c := slicesCompareWith intCompare one.unclonedSourcePath two.unclonedSourcePath
  if c ≠ 0 then c else
  let c := stringsCompare one.LeadingComments two.LeadingComments
  if c ≠ 0 then c else
  stringsCompare one.TrailingComments two.TrailingComments

/-- Modelled from the spec: `CompareLocations` with the claim's field list. -/
def CompareLocationsBySpec (one two : Option FileLocation) : Int :=
  match one, two with
  | none, none => 0
  | none, some _ => -1
  | some _, none => 1
  | some one, some two => compareFileLocationsBySpec one two

/-- Modelled from the spec: the claim's annotation order — rule ID, then
location (by the claim's field list), then against-location, then message. -/
def compareAnnotationValuesBySpec (one two : AnnotationM) : Int :=
  let c := stringsCompare one.ruleID two.ruleID
  if c ≠ 0 then c else
  let c := CompareLocationsBySpec one.location two.location
  if c ≠ 0 then c else
  let c := CompareLocationsBySpec one.againstLocation two.againstLocation
  if c ≠ 0 then c else
  stringsCompare one.message two.message

def annLEBySpec (a b : AnnotationM) : Prop :=
  compareAnnotationValuesBySpec a b ≤ 0

def locSpecKey (l : FileLocation) :
    String × Int × Int × Int × Int × List Int × String × String :=
  ⟨l.filePath, l.StartLine, l.StartColumn, l.EndLine, l.EndColumn,
    l.unclonedSourcePath, l.LeadingComments, l.TrailingComments⟩

def locSpecKeyCmp :
    String × Int × Int × Int × Int × List Int × String × String →
    String × Int × Int × Int × Int × List Int × String × String → Int :=
  pairCmp stringsCompare (pairCmp intCompare (pairCmp intCompare (pairCmp intCompare
    (pairCmp intCompare (pairCmp (slicesCompareWith intCompare)
      (pairCmp stringsCompare stringsCompare))))))

/-- The locations an annotation carries (primary and against). -/
def annLocations (a : AnnotationM) : List FileLocation :=
  a.location.toList ++ a.againstLocation.toList

/-- In any reachable check Response the comment fields of a location are a
function of its file and source path, because every location is resolved
through the call's single file-name-to-descriptor index.  This captures that
reachability fact for the leading detached comments. -/
def DetachedCommentsCoherent (l : List AnnotationM) : Prop :=
  ∀ x ∈ l, ∀ y ∈ l, ∀ lx ∈ annLocations x, ∀ ly ∈ annLocations y,
    lx.filePath = ly.filePath → lx.unclonedSourcePath = ly.unclonedSourcePath →
    lx.unclonedLeadingDetachedComments = ly.unclonedLeadingDetachedComments

/-- Embeds `descriptor.FileDescriptor` as the writer uses it: its path and
its `SourceLocations().ByPath` table. -/
structure FileDescriptorM where
  path : String
  sourceLocationsByPath : List (List Int × SourceLocation)
deriving DecidableEq

/-- `SourceLocations().ByPath`: the zero `SourceLocation` when absent. -/
def FileDescriptorM.byPath (fd : FileDescriptorM) (p : List Int) : SourceLocation :=
  ((fd.sourceLocationsByPath.find? (fun e => decide (e.1 = p))).map Prod.snd).getD
    zeroSourceLocation

/-- Embeds a `protoreflect.Descriptor` as the writer reads it: its parent
file's path (`ParentFile()` may be nil) and the source location
`ParentFile().SourceLocations().ByDescriptor` resolves for it. -/
structure DescriptorM where
  parentFilePath : Option String
  sourceLocation : SourceLocation
deriving DecidableEq

/-- Embeds the `addAnnotationOptions` struct of check/response_writer.go. -/
structure AddAnnotationOptions where
  message : String
  descriptor : Option DescriptorM
  againstDescriptor : Option DescriptorM
  fileName : String
  sourcePath : List Int
  againstFileName : String
  againstSourcePath : List Int
deriving DecidableEq

/-- Embeds `validateAddAnnotationOptions` from check/response_writer.go. -/
def validateAddAnnotationOptions (o : AddAnnotationOptions) : Except String Unit :=
  if o.descriptor.isSome ∧ (o.fileName ≠ "" ∨ 0 < o.sourcePath.length) then
    .error "cannot call both WithDescriptor and WithFileName or WithFileNameAndSourcePath"
  else if o.againstDescriptor.isSome ∧ (o.againstFileName ≠ "" ∨ 0 < o.againstSourcePath.length) then
    .error "cannot call both WithAgainstDescriptor and WithAgainstFileName or WithAgainstFileNameAndSourcePath"
  else if o.fileName = "" ∧ 0 < o.sourcePath.length then
    .error "must set a non-empty FileName when calling WithFileNameAndSourcePath"
  else if o.againstFileName = "" ∧ 0 < o.againstSourcePath.length then
    .error "must set a non-empty FileName when calling WithAgainstFileNameAndSourcePath"
  else .ok ()

/-- Embeds `getFileLocationForAddAnnotationOptions` from
check/response_writer.go.  The file-name map is a duplicate-free list. -/
def getFileLocationForAddAnnotationOptions
    (fileNameToFileDescriptor : List FileDescriptorM)
    (d : Option DescriptorM) (fileName : String) (path : List Int) :
    Except String (Option FileLocation) :=
  match d with
  | some d =>
    match d.parentFilePath with
    | some p =>
      match fileNameToFileDescriptor.find? (fun fd => decide (fd.path = p)) with
      | none => .error ("cannot add annotation for unknown file: " ++ p)
      | some _ => .ok (some ⟨p, d.sourceLocation⟩)
    | none => .ok none
  | none =>
    if fileName ≠ "" then
      match fileNameToFileDescriptor.find? (fun fd => decide (fd.path = fileName)) with
      | none => .error ("cannot add annotation for unknown file: " ++ fileName)
      | some fd =>
        .ok (some ⟨fileName, if 0 < path.length then fd.byPath path else zeroSourceLocation⟩)
    else .ok none

/-- Embeds `newAnnotation` from check/annotation.go. -/
def newAnnotationM (ruleID message : String)
    (location againstLocation : Option FileLocation) : Except String AnnotationM :=
  if ruleID = "" then .error "check.Annotation: RuleID is empty"
  else .ok ⟨ruleID, message, location, againstLocation⟩

def errCannotReuse : String := "cannot reuse ResponseWriter"

/-- Embeds the `multiResponseWriter` struct (the lock is dropped: all access
is serialized here by construction). -/
structure MultiResponseWriter where
  fileNameToFileDescriptor : List FileDescriptorM
  againstFileNameToFileDescriptor : List FileDescriptorM
  annotations : List AnnotationM
  written : Bool
  errs : List String
deriving DecidableEq

/-- Embeds `multiResponseWriter.addAnnotation`: invalid calls queue an error
rather than failing, in the order the Go code checks them. -/
def addAnnotationM (m : MultiResponseWriter) (ruleID : String)
    (o : AddAnnotationOptions) : MultiResponseWriter :=
  match validateAddAnnotationOptions o with
  | .error e => { m with errs := m.errs ++ [e] }
  | .ok _ =>
    if m.written then { m with errs := m.errs ++ [errCannotReuse] }
    else
      match getFileLocationForAddAnnotationOptions m.fileNameToFileDescriptor
          o.descriptor o.fileName o.sourcePath with
      | .error e => { m with errs := m.errs ++ [e] }
      | .ok fileLocation =>
        match getFileLocationForAddAnnotationOptions m.againstFileNameToFileDescriptor
            o.againstDescriptor o.againstFileName o.againstSourcePath with
        | .error e => { m with errs := m.errs ++ [e] }
        | .ok againstFileLocation =>
          match newAnnotationM ruleID o.message fileLocation againstFileLocation with
          | .error e => { m with errs := m.errs ++ [e] }
          | .ok a => { m with annotations := m.annotations ++ [a] }

/-- Models `errors.Join` on the queued error list. -/
def joinErrors (errs : List String) : String :=
  String.intercalate "\n" errs

/-- Embeds `multiResponseWriter.toResponse`: the combined queued error wins,
then the reuse guard, then the transition to written and the sorted
Response.  The Go method mutates the receiver; the new state is returned
explicitly. -/
def toResponse (m : MultiResponseWriter) :
    MultiResponseWriter × Except String Response :=
  if m.errs ≠ [] then (m, .error (joinErrors m.errs))
  else if m.written then (m, .error errCannotReuse)
  else ({ m with written := true }, .ok (newResponse m.annotations))

/-- Embeds the writer of `newMultiResponseWriter` for a validated Request
(whose file sets are duplicate-free by `validateFiles`, so the map build
cannot fail): fresh, open, empty. -/
def newMultiResponseWriter (files againstFiles : List FileDescriptorM) :
    MultiResponseWriter :=
  ⟨files, againstFiles, [], false, []⟩

def applyAddCalls (m : MultiResponseWriter)
    (calls : List (String × AddAnnotationOptions)) : MultiResponseWriter :=
  calls.foldl (fun m c => addAnnotationM m c.1 c.2) m

def isErrorE {α : Type} (e : Except String α) : Bool :=
  match e with
  | .error _ => true
  | .ok _ => false

/-- An `AddAnnotation` call that queues an error on an open writer with the
given file indexes: conflicting location options, an unresolvable file name
(primary or against), or an empty rule ID. -/
def addCallFails (files againstFiles : List FileDescriptorM)
    (ruleID : String) (o : AddAnnotationOptions) : Prop :=
  isErrorE (validateAddAnnotationOptions o) = true ∨
  isErrorE (getFileLocationForAddAnnotationOptions files o.descriptor
    o.fileName o.sourcePath) = true ∨
  isErrorE (getFileLocationForAddAnnotationOptions againstFiles
    o.againstDescriptor o.againstFileName o.againstSourcePath) = true ∨
  ruleID = ""

instance (files againstFiles : List FileDescriptorM) (ruleID : String)
    (o : AddAnnotationOptions) :
    Decidable (addCallFails files againstFiles ruleID o) := by
  unfold addCallFails
  infer_instance

/-- Embeds the `check.rule` struct (`isDefault` is Go's `Default` field). -/
structure Rule where
  id : String
  categoryIDs : List String
  isDefault : Bool
  purpose : String
  ruleType : Int
  deprecated : Bool
  replacementIDs : List String
deriving DecidableEq

/-- The pluginrpc error classes the check service handler produces. -/
inductive PluginError where
  | invalidArgument (message : String)
  | internal (message : String)
deriving DecidableEq

/-- Embeds the `ruleIDToRule` map built by `newCheckServiceHandler`, which
rejects duplicate rule IDs, so the first match is the only match. -/
def lookupRule (rules : List Rule) (id : String) : Option Rule :=
  rules.find? (fun r => decide (r.id = id))

/-- Embeds the explicit-rule-ID loop of `checkServiceHandler.Check`: each
requested ID is resolved against the map; the first unresolvable ID aborts
with an invalid-argument error. -/
def resolveRuleIDs (rules : List Rule) : List String → Except PluginError (List Rule)
  | [] => .ok []
  | id :: rest =>
    match lookupRule rules id with
    | none => .error (.invalidArgument ("unknown rule ID: " ++ id))
    | some r =>
      match resolveRuleIDs rules rest with
      | .error e => .error e
      | .ok rs => .ok (r :: rs)

/-- Embeds the effective-rule-set computation of
`checkServiceHandler.Check`: all default rules, unless explicit rule IDs
were given, in which case each is resolved. -/
def resolveCheckRules (rules : List Rule) (ruleIDs : List String) :
    Except PluginError (List Rule) :=
  match ruleIDs with
  | [] => .ok (rules.filter (fun r => r.isDefault))
  | _ :: _ => resolveRuleIDs rules ruleIDs

/-- The remainder of `Check` (writer construction, `thread.Parallelize`
over the rule handlers, finalization) abstracted as `run`: it executes only
after rule resolution succeeds. -/
def checkModel {α : Type} (rules : List Rule) (ruleIDs : List String)
    (run : List Rule → α) : Except PluginError α :=
  match resolveCheckRules rules ruleIDs with
  | .error e => .error e
  | .ok rs => .ok (run rs)

/-- The message of Go `context.Canceled` / `ctx.Err()`. -/
def ctxErr : String := "context canceled"

/-- Embeds the dispatch loop of `thread.Parallelize` for two or more jobs.
A job is modelled by its result (`none` = success, `some e` = error `e`).
`d i` is an oracle reporting whether the context was observed done during
iteration `i`; cancellation is monotone, and the loop double-checks the
context inside the semaphore case, so whenever `d i` holds the iteration
stops and joins the context error no matter which ready select case fired,
and otherwise job `i` is started.  The semaphore only delays iterations
(every started job releases its slot), so it does not affect which jobs
start.  Started jobs are awaited by the final `wg.Wait()`: their results
are joined into the returned error, modelled here in start order (Go's join
order depends on completion timing, which no claim relies on). -/
def parallelizeDispatch (d : Nat → Bool) : List (Option String) → Nat → List String × List Nat
  | [], _ => ([], [])
  | j :: rest, i =>
    if d i then ([ctxErr], [])
    else
      let p := parallelizeDispatch d rest (i + 1)
      (j.toList ++ p.1, i :: p.2)

/-- Embeds `thread.Parallelize`: zero jobs return immediately, one job runs
synchronously in the caller (no context check), two or more jobs go through
the dispatch loop.  Returns the joined error parts and the indexes of the
jobs that were started. -/
def Parallelize (d : Nat → Bool) (jobs : List (Option String)) :
    List String × List Nat :=
  match jobs with
  | [] => ([], [])
  | [j] => (j.toList, [0])
  | _ :: _ :: _ => parallelizeDispatch d jobs 0

def checkRuleIDPageSize : Nat := 250

/-- Embeds the wire `CheckRequest` message as `request.toProtos` builds it:
full file and against-file sets, the options, and one rule-ID slice. -/
structure CheckRequestP where
  files : List FileDescriptorM
  againstFiles : List FileDescriptorM
  options : List (String × String)
  ruleIds : List String
deriving DecidableEq

/-- Embeds the `check.request` struct: validated file sets, opaque options,
sorted duplicate-free rule IDs. -/
structure RequestM where
  fileDescriptors : List FileDescriptorM
  againstFileDescriptors : List FileDescriptorM
  options : List (String × String)
  ruleIDs : List String
deriving DecidableEq

/-- The chunking loop of `request.toProtos` (`for i := 0; i < len; i += 250`),
fuelled to stay structurally recursive; `chunkRuleIDs` supplies enough fuel. -/
def chunkAux : Nat → List String → List (List String)
  | _, [] => []
  | 0, _ :: _ => []
  | Nat.succ fuel, l => l.take checkRuleIDPageSize :: chunkAux fuel (l.drop checkRuleIDPageSize)

def chunkRuleIDs (l : List String) : List (List String) :=
  chunkAux l.length l

/-- Embeds `request.toProtos`: one message when there are no explicit rule
IDs, otherwise one message per 250-ID chunk, each carrying the full file and
against-file sets and the options.  (Go also propagates an error from
marshalling the options, modelled as total here, and returns nil for a nil
receiver.) -/
def toProtos (r : RequestM) : List CheckRequestP :=
  if r.ruleIDs = [] then
    [⟨r.fileDescriptors, r.againstFileDescriptors, r.options, []⟩]
  else
    (chunkRuleIDs r.ruleIDs).map
      (fun c => ⟨r.fileDescriptors, r.againstFileDescriptors, r.options, c⟩)

instance {ε α : Type} [DecidableEq ε] [DecidableEq α] : DecidableEq (Except ε α) :=
  fun x y =>
    match x, y with
    | .error a, .error b =>
      if h : a = b then isTrue (by rw [h]) else
        isFalse (fun hc => h (Except.error.inj hc))
    | .error _, .ok _ => isFalse (fun hc => Except.noConfusion hc)
    | .ok _, .error _ => isFalse (fun hc => Except.noConfusion hc)
    | .ok a, .ok b =>
      if h : a = b then isTrue (by rw [h]) else
        isFalse (fun hc => h (Except.ok.inj hc))

def defaultPageSize : Int := 250

/-- Embeds the `ruleIDToIndex` map built by `newCheckServiceHandler`
(duplicate IDs are rejected at construction, so the first match is the only
match). -/
def ruleIDToIndex (rules : List Rule) (id : String) : Option Nat :=
  match rules with
  | [] => none
  | r :: rest =>
    if r.id = id then some 0 else (ruleIDToIndex rest id).map (· + 1)

/-- Embeds `checkServiceHandler.getRulesAndNextPageToken`: resolve the page
token to an index (empty token means index 0, an unknown token is an
invalid-argument error), normalize a pageSize of exactly 0 to the default
250, take up to pageSize rules from that index (Go's `for range pageSize`
runs zero iterations when pageSize is negative), and return the ID of the
rule after the page as the next token, or an empty token at the end. -/
def getRulesAndNextPageToken (rules : List Rule) (pageSize : Int)
    (pageToken : String) : Except PluginError (List Rule × String) :=
  match (if pageToken = "" then some 0 else ruleIDToIndex rules pageToken) with
  | none => .error (.invalidArgument ("unknown page token: " ++ pageToken))
  | some index =>
    let pageSize := if pageSize = 0 then defaultPageSize else pageSize
    let resultRules := (rules.drop index).take pageSize.toNat
    let index2 := index + resultRules.length
    let nextPageToken :=
      match rules.drop index2 with
      | [] => ""
      | r :: _ => r.id
    .ok (resultRules, nextPageToken)

/-- Walking the paginated reader: start from the empty token and follow
each returned next token until it is empty, concatenating the pages.  The
fuel (supplied by `listAllRules`) bounds the number of pages. -/
def listAllRulesLoop (rules : List Rule) (pageSize : Int) :
    Nat → String → Except PluginError (List Rule)
  | 0, _ => .ok []
  | Nat.succ fuel, pageToken =>
    match getRulesAndNextPageToken rules pageSize pageToken with
    | .error e => .error e
    | .ok (items, next) =>
      if next = "" then .ok items
      else
        match listAllRulesLoop rules pageSize fuel next with
        | .error e => .error e
        | .ok rest => .ok (items ++ rest)

def listAllRules (rules : List Rule) (pageSize : Int) :
    Except PluginError (List Rule) :=
  listAllRulesLoop rules pageSize (rules.length + 1) ""

/-- Embeds the `RuleSpec` struct (`isDefault` is Go's `Default`, `ruleType`
Go's `Type`, `hasHandler` whether `Handler` is non-nil). -/
structure RuleSpec where
  id : String
  categoryIDs : List String
  isDefault : Bool
  purpose : String
  ruleType : Int
  deprecated : Bool
  replacementIDs : List String
  hasHandler : Bool
deriving DecidableEq

/-- Embeds the `CategorySpec` struct. -/
structure CategorySpec where
  id : String
  purpose : String
  deprecated : Bool
  replacementIDs : List String
deriving DecidableEq

/-- Embeds the `Spec` struct (License, Doc and Before play no part in
`ValidateSpec`). -/
structure Spec where
  rules : List RuleSpec
  categories : List CategorySpec
deriving DecidableEq

/-- A Go `map[string]T` built by inserting list elements keyed on `idOf` in
order: a later insertion overwrites an earlier one. -/
def lookupByID {α : Type} (idOf : α → String) : List α → String → Option α
  | [], _ => none
  | x :: rest, id =>
    match lookupByID idOf rest id with
    | some y => some y
    | none => if idOf x = id then some x else none

/-- A Go loop running a check per element and returning its first error. -/
def traverseCheck {α : Type} (f : α → Except String Unit) : List α → Except String Unit
  | [] => .ok ()
  | a :: as =>
    match f a with
    | .error e => .error e
    | .ok _ => traverseCheck f as

def idMinLen : Nat := 3

def idMaxLen : Nat := 64

/-- `[A-Z0-9]` (codes 65-90 and 48-57). -/
def isIDEdgeChar (c : Char) : Bool :=
  (decide (Char.ofNat 65 ≤ c) && decide (c ≤ Char.ofNat 90)) ||
    (decide (Char.ofNat 48 ≤ c) && decide (c ≤ Char.ofNat 57))

/-- `[A-Z0-9_]` (code 95 is the underscore). -/
def isIDMidChar (c : Char) : Bool :=
  isIDEdgeChar c || decide (c = Char.ofNat 95)

/-- The part of `idRegexp` after the first character:
`[A-Z0-9_]*[A-Z0-9]$`. -/
def idRegexpTail : List Char → Bool
  | [] => false
  | [c] => isIDEdgeChar c
  | c :: rest => isIDMidChar c && idRegexpTail rest

/-- Matching against `idRegexp` = `^[A-Z0-9][A-Z0-9_]*[A-Z0-9]$`. -/
def idRegexpMatch (s : String) : Bool :=
  match s.data with
  | [] => false
  | c :: rest => isIDEdgeChar c && idRegexpTail rest

/-- Embeds `validateID` from check/server_spec.go (Go measures byte length;
IDs passing the regexp are ASCII, where byte and character length agree). -/
def validateID (id : String) : Except String Unit :=
  if id = "" then .error "ID is empty"
  else if id.length < idMinLen then .error ("ID is too short: " ++ id)
  else if idMaxLen < id.length then .error ("ID is too long: " ++ id)
  else if idRegexpMatch id then .ok ()
  else .error ("ID does not match the ID regexp: " ++ id)

def isUpperAlpha (c : Char) : Bool :=
  decide (Char.ofNat 65 ≤ c) && decide (c ≤ Char.ofNat 90)

/-- The part of `purposeRegexp` after the first character: `.*[.]$` (`.`
matches anything but a newline; 46 is the full stop, 10 the newline). -/
def purposeRegexpTail : List Char → Bool
  | [] => false
  | [c] => decide (c = Char.ofNat 46)
  | c :: rest => decide (c ≠ Char.ofNat 10) && purposeRegexpTail rest

/-- Matching against `purposeRegexp` = `^[A-Z].*[.]$`. -/
def purposeRegexpMatch (s : String) : Bool :=
  match s.data with
  | [] => false
  | c :: rest => isUpperAlpha c && purposeRegexpTail rest

/-- Embeds `validatePurpose` from check/server_spec.go. -/
def validatePurpose (id purpose : String) : Except String Unit :=
  if purpose = "" then .error ("Purpose is empty for ID " ++ id)
  else if purposeRegexpMatch purpose then .ok ()
  else .error ("Purpose does not match the purpose regexp for ID " ++ id)

/-- Embeds `validateNoDuplicateRuleIDs` (the Go error carries the sorted
duplicate list; the model keeps a fixed message). -/
def validateNoDuplicateRuleIDs (ids : List String) : Except String Unit :=
  if ids.Nodup then .ok () else .error "duplicate rule IDs"

/-- Embeds `validateNoDuplicateCategoryIDs`. -/
def validateNoDuplicateCategoryIDs (ids : List String) : Except String Unit :=
  if ids.Nodup then .ok () else .error "duplicate category IDs"

/-- Embeds `validateNoDuplicateRuleOrCategoryIDs`. -/
def validateNoDuplicateRuleOrCategoryIDs (ids : List String) : Except String Unit :=
  if ids.Nodup then .ok () else .error "duplicate rule or category IDs"

/-- The keys of `ruleTypeToProtoRuleType`: RuleTypeLint = 1,
RuleTypeBreaking = 2. -/
def ruleTypeKnown (t : Int) : Bool :=
  decide (t = 1) || decide (t = 2)

/-- The per-replacement-ID loop of `validateRuleSpecs`: each replacement ID
must resolve in the rule map and must itself not be deprecated. -/
def checkRuleReplacementIDs (all : List RuleSpec) : List String → Except String Unit
  | [] => .ok ()
  | rid :: rest =>
    match lookupByID (fun r : RuleSpec => r.id) all rid with
    | none => .error ("replacement ID was not found: " ++ rid)
    | some rr =>
      if rr.deprecated then .error ("replacement ID is also deprecated: " ++ rid)
      else checkRuleReplacementIDs all rest

/-- The replacement/deprecation block of the `validateRuleSpecs` loop body:
a non-deprecated rule must have no replacement IDs, and each replacement ID
must name an existing, non-deprecated rule. -/
def validateRuleSpecReplacements (all : List RuleSpec) (r : RuleSpec) :
    Except String Unit :=
  if r.replacementIDs ≠ [] ∧ ¬r.deprecated then
    .error ("ID had ReplacementIDs but Deprecated was false: " ++ r.id)
  else checkRuleReplacementIDs all r.replacementIDs

/-- The referenced-category loop of the `validateRuleSpecs` loop body. -/
def checkCategoryIDsExist (categoryIDMap : List String) : List String → Except String Unit
  | [] => .ok ()
  | cid :: rest =>
    if categoryIDMap.contains cid then checkCategoryIDsExist categoryIDMap rest
    else .error ("no category has ID: " ++ cid)

/-- The body of the second `validateRuleSpecs` loop, in the Go order:
referenced categories, purpose, type set, type known, handler set,
default-and-deprecated, replacements. -/
def validateRuleSpecEntry (categoryIDMap : List String) (all : List RuleSpec)
    (r : RuleSpec) : Except String Unit :=
  match checkCategoryIDsExist categoryIDMap r.categoryIDs with
  | .error e => .error e
  | .ok _ =>
    match validatePurpose r.id r.purpose with
    | .error e => .error e
    | .ok _ =>
      if r.ruleType = 0 then .error ("Type is not set for ID " ++ r.id)
      else if ruleTypeKnown r.ruleType then
        if ¬r.hasHandler then .error ("Handler is not set for ID " ++ r.id)
        else if r.isDefault ∧ r.deprecated then
          .error ("ID was a default Rule but Deprecated was true: " ++ r.id)
        else validateRuleSpecReplacements all r
      else .error ("Type is unknown for ID " ++ r.id)

/-- Embeds `validateRuleSpecs` from check/server_spec.go: duplicate-ID
check, then a first loop validating every ID (and building the rule map),
then the per-rule loop. -/
def validateRuleSpecs (ruleSpecs : List RuleSpec) (categoryIDMap : List String) :
    Except String Unit :=
  match validateNoDuplicateRuleIDs (ruleSpecs.map (fun r => r.id)) with
  | .error e => .error e
  | .ok _ =>
    match traverseCheck (fun r => validateID r.id) ruleSpecs with
    | .error e => .error e
    | .ok _ => traverseCheck (validateRuleSpecEntry categoryIDMap ruleSpecs) ruleSpecs

/-- The per-replacement-ID loop of `validateCategorySpecs`. -/
def checkCategoryReplacementIDs (all : List CategorySpec) :
    List String → Except String Unit
  | [] => .ok ()
  | cid :: rest =>
    match lookupByID (fun c : CategorySpec => c.id) all cid with
    | none => .error ("replacement ID was not found: " ++ cid)
    | some cc =>
      if cc.deprecated then .error ("replacement ID is also deprecated: " ++ cid)
      else checkCategoryReplacementIDs all rest

/-- The replacement/deprecation block of the `validateCategorySpecs` loop
body. -/
def validateCategorySpecReplacements (all : List CategorySpec) (c : CategorySpec) :
    Except String Unit :=
  if c.replacementIDs ≠ [] ∧ ¬c.deprecated then
    .error ("ID had ReplacementIDs but Deprecated was false: " ++ c.id)
  else checkCategoryReplacementIDs all c.replacementIDs

/-- The body of the second `validateCategorySpecs` loop, in the Go order:
purpose, replacements, referenced by at least one rule. -/
def validateCategorySpecEntry (categoryIDForRulesMap : List String)
    (all : List CategorySpec) (c : CategorySpec) : Except String Unit :=
  match validatePurpose c.id c.purpose with
  | .error e => .error e
  | .ok _ =>
    match validateCategorySpecReplacements all c with
    | .error e => .error e
    | .ok _ =>
      if categoryIDForRulesMap.contains c.id then .ok ()
      else .error ("no Rule has a Category ID of " ++ c.id)

/-- Embeds `validateCategorySpecs` from check/server_spec.go. -/
def validateCategorySpecs (categorySpecs : List CategorySpec)
    (ruleSpecs : List RuleSpec) : Except String Unit :=
  match validateNoDuplicateCategoryIDs (categorySpecs.map (fun c => c.id)) with
  | .error e => .error e
  | .ok _ =>
    match traverseCheck (fun c => validateID c.id) categorySpecs with
    | .error e => .error e
    | .ok _ =>
      traverseCheck
        (validateCategorySpecEntry ((ruleSpecs.map (fun r => r.categoryIDs)).flatten)
          categorySpecs)
        categorySpecs

/-- Embeds `ValidateSpec` from check/spec.go: non-empty rules, no duplicate
ID across the combined rule and category namespace, rule checks, category
checks. -/
def ValidateSpec (spec : Spec) : Except String Unit :=
  if spec.rules = [] then .error "Rules is empty"
  else
    match validateNoDuplicateRuleOrCategoryIDs
        (spec.rules.map (fun r => r.id) ++ spec.categories.map (fun c => c.id)) with
    | .error e => .error e
    | .ok _ =>
      match validateRuleSpecs spec.rules (spec.categories.map (fun c => c.id)) with
      | .error e => .error e
      | .ok _ => validateCategorySpecs spec.categories spec.rules

/-! ### Theorems -/

theorem IsLawfulCmp.total {α : Type} {cmp : α → α → Int} (h : IsLawfulCmp cmp)
    (a b : α) : cmp a b ≤ 0 ∨ cmp b a ≤ 0 := by
  have hf := h.flip a b
  omega

theorem IsLawfulCmp.antisymm_eq {α : Type} {cmp : α → α → Int} (h : IsLawfulCmp cmp)
    {a b : α} (h1 : cmp a b ≤ 0) (h2 : cmp b a ≤ 0) : a = b := by
  have hf := h.flip a b
  exact (h.eq_iff a b).mp (by omega)

theorem IsLawfulCmp.of_pointwise {α : Type} {cmp cmp2 : α → α → Int}
    (hpt : ∀ a b, cmp a b = cmp2 a b) (h : IsLawfulCmp cmp2) : IsLawfulCmp cmp := by
  refine ⟨?_, ?_, ?_⟩
  · intro a b; rw [hpt]; exact h.eq_iff a b
  · intro a b; rw [hpt, hpt]; exact h.flip a b
  · intro a b c; rw [hpt, hpt, hpt]; exact h.cle_trans a b c

/-- Transfer comparator laws along an injective key. -/
theorem IsLawfulCmp.of_key {α β : Type} {cmp : α → α → Int} {ck : β → β → Int}
    (k : α → β) (hck : IsLawfulCmp ck) (hinj : ∀ a b, k a = k b → a = b)
    (hk : ∀ a b, cmp a b = ck (k a) (k b)) : IsLawfulCmp cmp := by
  refine ⟨?_, ?_, ?_⟩
  · intro a b
    rw [hk]
    constructor
    · intro h0; exact hinj a b ((hck.eq_iff _ _).mp h0)
    · intro h0; rw [h0]; exact (hck.eq_iff _ _).mpr rfl
  · intro a b; rw [hk, hk]; exact hck.flip _ _
  · intro a b c; rw [hk, hk, hk]; exact hck.cle_trans _ _ _

theorem isLawfulCmp_linCompare {α : Type} [LinearOrder α] :
    IsLawfulCmp (fun a b : α => if a < b then -1 else if b < a then 1 else 0) := by
  refine ⟨?_, ?_, ?_⟩
  · intro a b
    by_cases h1 : a < b
    · simp only [h1, if_true]
      constructor
      · intro h; omega
      · intro h; exact absurd h (ne_of_lt h1)
    · by_cases h2 : b < a
      · simp only [h1, h2, if_true, if_false]
        constructor
        · intro h; omega
        · intro h; exact absurd h.symm (ne_of_lt h2)
      · simp only [h1, h2, if_false]
        have : a = b := le_antisymm (not_lt.mp h2) (not_lt.mp h1)
        simp [this]
  · intro a b
    rcases lt_trichotomy a b with h | h | h
    · simp [h, not_lt.mpr (le_of_lt h)]
    · simp [h, lt_irrefl]
    · simp [h, not_lt.mpr (le_of_lt h)]
  · intro a b c h1 h2
    have hab : a ≤ b := by
      by_contra hc
      have : b < a := not_le.mp hc
      simp [this, not_lt.mpr (le_of_lt this)] at h1
    have hbc : b ≤ c := by
      by_contra hc
      have : c < b := not_le.mp hc
      simp [this, not_lt.mpr (le_of_lt this)] at h2
    have hac : a ≤ c := le_trans hab hbc
    split_ifs with hlt hgt
    · omega
    · exact absurd hgt (not_lt.mpr hac)
    · omega

theorem isLawfulCmp_stringsCompare : IsLawfulCmp stringsCompare := by
  refine IsLawfulCmp.of_pointwise ?_ (@isLawfulCmp_linCompare String _)
  intro a b
  by_cases h1 : a < b
  · simp [stringsCompare, h1]
  · by_cases h2 : b < a
    · simp [stringsCompare, h1, h2]
    · simp [stringsCompare, h1, h2]

theorem isLawfulCmp_intCompare : IsLawfulCmp intCompare := by
  refine IsLawfulCmp.of_pointwise ?_ (@isLawfulCmp_linCompare Int _)
  intro a b
  by_cases h1 : a < b
  · simp [intCompare, h1]
  · by_cases h2 : b < a
    · simp [intCompare, h1, h2]
    · simp [intCompare, h1, h2]

theorem slicesCompareWith_flip {α : Type} {cmp : α → α → Int}
    (hf : ∀ a b, cmp a b = -(cmp b a)) :
    ∀ one two : List α, slicesCompareWith cmp one two = -(slicesCompareWith cmp two one) := by
  intro one
  induction one with
  | nil => intro two; cases two <;> simp [slicesCompareWith]
  | cons a as ih =>
    intro two
    cases two with
    | nil => simp [slicesCompareWith]
    | cons b bs =>
      simp only [slicesCompareWith]
      by_cases h0 : cmp a b = 0
      · have h0' : cmp b a = 0 := by have := hf a b; omega
        simp [h0, h0', ih bs]
      · have h0' : cmp b a ≠ 0 := by have := hf a b; omega
        simp [h0, h0', hf a b]

theorem slicesCompareWith_eq_iff {α : Type} {cmp : α → α → Int}
    (he : ∀ a b, cmp a b = 0 ↔ a = b) :
    ∀ one two : List α, slicesCompareWith cmp one two = 0 ↔ one = two := by
  intro one
  induction one with
  | nil => intro two; cases two <;> simp [slicesCompareWith]
  | cons a as ih =>
    intro two
    cases two with
    | nil => simp [slicesCompareWith]
    | cons b bs =>
      simp only [slicesCompareWith]
      by_cases h0 : cmp a b = 0
      · have hab : a = b := (he a b).mp h0
        subst hab
        simp [h0, ih bs]
      · have hab : a ≠ b := fun hc => h0 ((he a b).mpr hc)
        simp [h0, hab]

theorem slicesCompareWith_cle_trans {α : Type} {cmp : α → α → Int}
    (h : IsLawfulCmp cmp) :
    ∀ one two three : List α, slicesCompareWith cmp one two ≤ 0 →
      slicesCompareWith cmp two three ≤ 0 → slicesCompareWith cmp one three ≤ 0 := by
  intro one
  induction one with
  | nil => intro two three _ _; cases three <;> simp [slicesCompareWith]
  | cons a as ih =>
    intro two three h1 h2
    cases two with
    | nil => simp [slicesCompareWith] at h1
    | cons b bs =>
      cases three with
      | nil => simp [slicesCompareWith] at h2
      | cons c cs =>
        simp only [slicesCompareWith] at h1 h2 ⊢
        by_cases hab : cmp a b = 0
        · have hab' : a = b := (h.eq_iff a b).mp hab
          subst hab'
          simp only [hab, ne_eq, not_true_eq_false, if_false] at h1
          by_cases hac : cmp a c = 0
          · have hac' : a = c := (h.eq_iff a c).mp hac
            subst hac'
            simp only [hac, ne_eq, not_true_eq_false, if_false] at h2 ⊢
            exact ih bs cs h1 h2
          · simp only [ne_eq, hac, not_false_eq_true, if_true] at h2 ⊢
            exact h2
        · simp only [ne_eq, hab, not_false_eq_true, if_true] at h1
          by_cases hbc : cmp b c = 0
          · have hbc' : b = c := (h.eq_iff b c).mp hbc
            subst hbc'
            simp [hab, h1]
          · simp only [ne_eq, hbc, not_false_eq_true, if_true] at h2
            have hac : cmp a c ≤ 0 := h.cle_trans a b c h1 h2
            by_cases hac0 : cmp a c = 0
            · have hac' : a = c := (h.eq_iff a c).mp hac0
              subst hac'
              have := h.flip a b
              omega
            · simp [hac0, hac]

theorem isLawfulCmp_slicesCompareWith {α : Type} {cmp : α → α → Int}
    (h : IsLawfulCmp cmp) : IsLawfulCmp (slicesCompareWith cmp) :=
  ⟨slicesCompareWith_eq_iff h.eq_iff, slicesCompareWith_flip h.flip,
    slicesCompareWith_cle_trans h⟩

theorem isLawfulCmp_pairCmp {α β : Type} {c1 : α → α → Int} {c2 : β → β → Int}
    (h1 : IsLawfulCmp c1) (h2 : IsLawfulCmp c2) : IsLawfulCmp (pairCmp c1 c2) := by
  refine ⟨?_, ?_, ?_⟩
  · intro x y
    obtain ⟨x1, x2⟩ := x
    obtain ⟨y1, y2⟩ := y
    simp only [pairCmp]
    by_cases h0 : c1 x1 y1 = 0
    · have hfst : x1 = y1 := (h1.eq_iff _ _).mp h0
      subst hfst
      simp [h0, h2.eq_iff x2 y2]
    · have hfst : x1 ≠ y1 := fun hc => h0 ((h1.eq_iff _ _).mpr hc)
      simp [h0, hfst]
  · intro x y
    simp only [pairCmp]
    by_cases h0 : c1 x.1 y.1 = 0
    · have h0' : c1 y.1 x.1 = 0 := by have := h1.flip x.1 y.1; omega
      simp [h0, h0', h2.flip x.2 y.2]
    · have h0' : c1 y.1 x.1 ≠ 0 := by have := h1.flip x.1 y.1; omega
      simp [h0, h0', h1.flip x.1 y.1]
  · intro x y z hxy hyz
    simp only [pairCmp] at hxy hyz ⊢
    by_cases hab : c1 x.1 y.1 = 0
    · have hab' : x.1 = y.1 := (h1.eq_iff _ _).mp hab
      simp only [hab, ne_eq, not_true_eq_false, if_false] at hxy
      by_cases hac : c1 x.1 z.1 = 0
      · have hbc : c1 y.1 z.1 = 0 := by rw [← hab']; exact hac
        simp only [hbc, ne_eq, not_true_eq_false, if_false] at hyz
        simp only [hac, ne_eq, not_true_eq_false, if_false]
        exact h2.cle_trans _ _ _ hxy hyz
      · have hbc : c1 y.1 z.1 ≠ 0 := by rw [← hab']; exact hac
        simp only [ne_eq, hbc, not_false_eq_true, if_true] at hyz
        simp only [ne_eq, hac, not_false_eq_true, if_true]
        rw [hab']; exact hyz
    · simp only [ne_eq, hab, not_false_eq_true, if_true] at hxy
      by_cases hbc : c1 y.1 z.1 = 0
      · have hbc' : y.1 = z.1 := (h1.eq_iff _ _).mp hbc
        have hac : c1 x.1 z.1 = c1 x.1 y.1 := by rw [← hbc']
        simp [hac, hab, hxy]
      · simp only [ne_eq, hbc, not_false_eq_true, if_true] at hyz
        have hac : c1 x.1 z.1 ≤ 0 := h1.cle_trans _ _ _ hxy hyz
        by_cases hac0 : c1 x.1 z.1 = 0
        · have : x.1 = z.1 := (h1.eq_iff _ _).mp hac0
          rw [this] at hxy
          have := h1.flip z.1 y.1
          omega
        · simp [hac0, hac]

theorem isLawfulCmp_optCmp {α : Type} {cmp : α → α → Int}
    (h : IsLawfulCmp cmp) : IsLawfulCmp (optCmp cmp) := by
  refine ⟨?_, ?_, ?_⟩
  · intro a b
    cases a <;> cases b <;> simp [optCmp]
    exact h.eq_iff _ _
  · intro a b
    cases a <;> cases b <;> simp [optCmp]
    exact h.flip _ _
  · intro a b c h1 h2
    cases a <;> cases b <;> cases c <;> simp only [optCmp] at h1 h2 ⊢ <;> try omega
    exact h.cle_trans _ _ _ h1 h2

theorem compareFileLocations_eq_key (one two : FileLocation) :
    compareFileLocations one two = locKeyCmp (locKey one) (locKey two) :=
  rfl

theorem isLawfulCmp_locKeyCmp : IsLawfulCmp locKeyCmp := by
  unfold locKeyCmp
  refine isLawfulCmp_pairCmp isLawfulCmp_stringsCompare ?_
  refine isLawfulCmp_pairCmp isLawfulCmp_intCompare ?_
  refine isLawfulCmp_pairCmp isLawfulCmp_intCompare ?_
  refine isLawfulCmp_pairCmp isLawfulCmp_intCompare ?_
  refine isLawfulCmp_pairCmp isLawfulCmp_intCompare ?_
  refine isLawfulCmp_pairCmp (isLawfulCmp_slicesCompareWith isLawfulCmp_intCompare) ?_
  refine isLawfulCmp_pairCmp isLawfulCmp_stringsCompare ?_
  exact isLawfulCmp_pairCmp isLawfulCmp_stringsCompare
    (isLawfulCmp_slicesCompareWith isLawfulCmp_stringsCompare)

theorem locKey_inj (one two : FileLocation) (h : locKey one = locKey two) :
    one = two := by
  obtain ⟨p1, ⟨s1⟩⟩ := one
  obtain ⟨p2, ⟨s2⟩⟩ := two
  simp only [locKey, FileLocation.StartLine, FileLocation.StartColumn,
    FileLocation.EndLine, FileLocation.EndColumn, FileLocation.unclonedSourcePath,
    FileLocation.LeadingComments, FileLocation.TrailingComments,
    FileLocation.unclonedLeadingDetachedComments, Prod.mk.injEq] at h
  simp_all

theorem isLawfulCmp_compareFileLocations : IsLawfulCmp compareFileLocations :=
  IsLawfulCmp.of_key locKey isLawfulCmp_locKeyCmp locKey_inj compareFileLocations_eq_key

theorem CompareLocations_eq_optCmp (one two : Option FileLocation) :
    CompareLocations one two = optCmp compareFileLocations one two := by
  cases one <;> cases two <;> rfl

theorem isLawfulCmp_CompareLocations : IsLawfulCmp CompareLocations :=
  IsLawfulCmp.of_pointwise CompareLocations_eq_optCmp
    (isLawfulCmp_optCmp isLawfulCmp_compareFileLocations)

theorem compareAnnotationValues_eq_key (one two : AnnotationM) :
    compareAnnotationValues one two = annKeyCmp (annKey one) (annKey two) :=
  rfl

theorem isLawfulCmp_annKeyCmp : IsLawfulCmp annKeyCmp := by
  unfold annKeyCmp
  refine isLawfulCmp_pairCmp isLawfulCmp_stringsCompare ?_
  refine isLawfulCmp_pairCmp isLawfulCmp_CompareLocations ?_
  exact isLawfulCmp_pairCmp isLawfulCmp_CompareLocations isLawfulCmp_stringsCompare

theorem annKey_inj (one two : AnnotationM) (h : annKey one = annKey two) :
    one = two := by
  obtain ⟨r1, m1, l1, a1⟩ := one
  obtain ⟨r2, m2, l2, a2⟩ := two
  simp only [annKey, Prod.mk.injEq] at h
  simp_all

theorem isLawfulCmp_compareAnnotationValues : IsLawfulCmp compareAnnotationValues :=
  IsLawfulCmp.of_key annKey isLawfulCmp_annKeyCmp annKey_inj compareAnnotationValues_eq_key

theorem CompareAnnotations_eq_optCmp (one two : Option AnnotationM) :
    CompareAnnotations one two = optCmp compareAnnotationValues one two := by
  cases one <;> cases two <;> rfl

theorem isLawfulCmp_CompareAnnotations : IsLawfulCmp CompareAnnotations :=
  IsLawfulCmp.of_pointwise CompareAnnotations_eq_optCmp
    (isLawfulCmp_optCmp isLawfulCmp_compareAnnotationValues)

theorem compareFileLocationsBySpec_eq_key (one two : FileLocation) :
    compareFileLocationsBySpec one two = locSpecKeyCmp (locSpecKey one) (locSpecKey two) :=
  rfl

theorem isLawfulCmp_locSpecKeyCmp : IsLawfulCmp locSpecKeyCmp := by
  unfold locSpecKeyCmp
  refine isLawfulCmp_pairCmp isLawfulCmp_stringsCompare ?_
  refine isLawfulCmp_pairCmp isLawfulCmp_intCompare ?_
  refine isLawfulCmp_pairCmp isLawfulCmp_intCompare ?_
  refine isLawfulCmp_pairCmp isLawfulCmp_intCompare ?_
  refine isLawfulCmp_pairCmp isLawfulCmp_intCompare ?_
  refine isLawfulCmp_pairCmp (isLawfulCmp_slicesCompareWith isLawfulCmp_intCompare) ?_
  exact isLawfulCmp_pairCmp isLawfulCmp_stringsCompare isLawfulCmp_stringsCompare

/-- The code order agrees with the claim's order until the claim's fields
tie, at which point the code falls through to the leading-detached-comments
tiebreaker. -/
theorem compareFileLocations_eq_spec_then_detached (l1 l2 : FileLocation) :
    compareFileLocations l1 l2 =
      (if compareFileLocationsBySpec l1 l2 ≠ 0 then compareFileLocationsBySpec l1 l2
       else slicesCompareWith stringsCompare l1.unclonedLeadingDetachedComments
         l2.unclonedLeadingDetachedComments) := by
  unfold compareFileLocations compareFileLocationsBySpec
  by_cases h1 : stringsCompare l1.filePath l2.filePath = 0
  case neg => simp [h1]
  case pos =>
  by_cases h2 : intCompare l1.StartLine l2.StartLine = 0
  case neg => simp [h1, h2]
  case pos =>
  by_cases h3 : intCompare l1.StartColumn l2.StartColumn = 0
  case neg => simp [h1, h2, h3]
  case pos =>
  by_cases h4 : intCompare l1.EndLine l2.EndLine = 0
  case neg => simp [h1, h2, h3, h4]
  case pos =>
  by_cases h5 : intCompare l1.EndColumn l2.EndColumn = 0
  case neg => simp [h1, h2, h3, h4, h5]
  case pos =>
  by_cases h6 : slicesCompareWith intCompare l1.unclonedSourcePath l2.unclonedSourcePath = 0
  case neg => simp [h1, h2, h3, h4, h5, h6]
  case pos =>
  by_cases h7 : stringsCompare l1.LeadingComments l2.LeadingComments = 0
  case neg => simp [h1, h2, h3, h4, h5, h6, h7]
  case pos =>
  by_cases h8 : stringsCompare l1.TrailingComments l2.TrailingComments = 0
  case neg => simp [h1, h2, h3, h4, h5, h6, h7, h8]
  case pos => simp [h1, h2, h3, h4, h5, h6, h7, h8]

/-- If the claim's location fields all tie, those fields are equal. -/
theorem locSpecKey_eq_of_spec_zero {l1 l2 : FileLocation}
    (h : compareFileLocationsBySpec l1 l2 = 0) : locSpecKey l1 = locSpecKey l2 := by
  rw [compareFileLocationsBySpec_eq_key] at h
  exact (isLawfulCmp_locSpecKeyCmp.eq_iff _ _).mp h

theorem CompareLocations_eq_spec_of_detached (o1 o2 : Option FileLocation)
    (h : ∀ l1 l2, o1 = some l1 → o2 = some l2 → l1.filePath = l2.filePath →
      l1.unclonedSourcePath = l2.unclonedSourcePath →
      l1.unclonedLeadingDetachedComments = l2.unclonedLeadingDetachedComments) :
    CompareLocations o1 o2 = CompareLocationsBySpec o1 o2 := by
  cases o1 with
  | none => cases o2 <;> rfl
  | some l1 =>
    cases o2 with
    | none => rfl
    | some l2 =>
      show compareFileLocations l1 l2 = compareFileLocationsBySpec l1 l2
      rw [compareFileLocations_eq_spec_then_detached]
      by_cases hz : compareFileLocationsBySpec l1 l2 = 0
      · have hkey := locSpecKey_eq_of_spec_zero hz
        simp only [locSpecKey, Prod.mk.injEq] at hkey
        have hdet := h l1 l2 rfl rfl hkey.1 hkey.2.2.2.2.2.1
        have : slicesCompareWith stringsCompare l1.unclonedLeadingDetachedComments
            l2.unclonedLeadingDetachedComments = 0 :=
          ((isLawfulCmp_slicesCompareWith isLawfulCmp_stringsCompare).eq_iff _ _).mpr hdet
        simp [hz, this]
      · simp [hz]

theorem compareAnnotationValues_eq_spec (x y : AnnotationM)
    (hloc : CompareLocations x.location y.location =
      CompareLocationsBySpec x.location y.location)
    (hag : CompareLocations x.againstLocation y.againstLocation =
      CompareLocationsBySpec x.againstLocation y.againstLocation) :
    compareAnnotationValues x y = compareAnnotationValuesBySpec x y := by
  simp only [compareAnnotationValues, compareAnnotationValuesBySpec, hloc, hag]

theorem annLEBySpec_of_annLE {l : List AnnotationM} (hcoh : DetachedCommentsCoherent l)
    {x y : AnnotationM} (hx : x ∈ l) (hy : y ∈ l) (hxy : annLE x y) :
    annLEBySpec x y := by
  have hloc : CompareLocations x.location y.location =
      CompareLocationsBySpec x.location y.location := by
    refine CompareLocations_eq_spec_of_detached _ _ ?_
    intro lx ly hlx hly
    exact hcoh x hx y hy lx (by simp [annLocations, hlx]) ly (by simp [annLocations, hly])
  have hag : CompareLocations x.againstLocation y.againstLocation =
      CompareLocationsBySpec x.againstLocation y.againstLocation := by
    refine CompareLocations_eq_spec_of_detached _ _ ?_
    intro lx ly hlx hly
    exact hcoh x hx y hy lx (by simp [annLocations, hlx]) ly (by simp [annLocations, hly])
  have heq := compareAnnotationValues_eq_spec x y hloc hag
  unfold annLEBySpec
  unfold annLE at hxy
  rw [← heq]
  exact hxy

/-- C1: For every successful Check call the Response annotations are sorted
by the total order of `CompareAnnotations` (rule ID, then location, then
against-location, then message), the Response holds exactly the added
annotations, and a fixed multiset of added annotations yields an identical
finalized Response regardless of the order in which handlers added them.
Moreover, on any annotation list whose locations draw their comments from
one file index (`DetachedCommentsCoherent`, true of every reachable call),
the result is also sorted by the claim's exact field list, which omits the
code's final leading-detached-comments tiebreaker. -/
theorem C1_response_sorted_and_order_independent
    (l1 l2 : List AnnotationM) (hperm : l1.Perm l2) :
    List.Sorted annLE (newResponse l1).annotations ∧
    ((newResponse l1).annotations).Perm l1 ∧
    newResponse l1 = newResponse l2 ∧
    (DetachedCommentsCoherent l1 →
      List.Sorted annLEBySpec (newResponse l1).annotations) := by
  haveI : IsTotal AnnotationM annLE :=
    ⟨fun a b => isLawfulCmp_CompareAnnotations.total (some a) (some b)⟩
  haveI : IsTrans AnnotationM annLE :=
    ⟨fun a b c => isLawfulCmp_CompareAnnotations.cle_trans (some a) (some b) (some c)⟩
  haveI : IsAntisymm AnnotationM annLE :=
    ⟨fun a b h1 h2 =>
      Option.some.inj (isLawfulCmp_CompareAnnotations.antisymm_eq h1 h2)⟩
  have hs1 : List.Sorted annLE (sortAnnotations l1) :=
    List.sorted_insertionSort annLE l1
  have hs2 : List.Sorted annLE (sortAnnotations l2) :=
    List.sorted_insertionSort annLE l2
  have hp1 : (sortAnnotations l1).Perm l1 := List.perm_insertionSort annLE l1
  have hp2 : (sortAnnotations l2).Perm l2 := List.perm_insertionSort annLE l2
  have hp12 : (sortAnnotations l1).Perm (sortAnnotations l2) :=
    (hp1.trans hperm).trans hp2.symm
  have heq : sortAnnotations l1 = sortAnnotations l2 :=
    List.eq_of_perm_of_sorted hp12 hs1 hs2
  refine ⟨hs1, hp1, ?_, ?_⟩
  · unfold newResponse
    rw [heq]
  · intro hcoh
    refine List.Pairwise.imp_of_mem ?_ hs1
    intro x y hx hy hxy
    exact annLEBySpec_of_annLE hcoh (hp1.mem_iff.mp hx) (hp1.mem_iff.mp hy) hxy

/-- Witness for C1 at a concrete input: two annotations added in the wrong
order come back sorted, and both insertion orders give the same Response. -/
theorem C1_witness :
    (let a1 : AnnotationM := ⟨"RULE_B", "mb", none, none⟩
     let a2 : AnnotationM := ⟨"RULE_A", "ma", some ⟨"f.proto", zeroSourceLocation⟩, none⟩
     List.Perm [a1, a2] [a2, a1] ∧
    (List.Sorted annLE (newResponse [a1, a2]).annotations ∧
      ((newResponse [a1, a2]).annotations).Perm [a1, a2] ∧
      newResponse [a1, a2] = newResponse [a2, a1] ∧
      (DetachedCommentsCoherent [a1, a2] →
        List.Sorted annLEBySpec (newResponse [a1, a2]).annotations))) :=
  ⟨List.Perm.swap _ _ _,
    C1_response_sorted_and_order_independent _ _ (List.Perm.swap _ _ _)⟩

/-- Every `addAnnotation` call either queues one error or appends one
annotation; it never touches the file indexes or the written flag. -/
theorem addAnnotationM_cases (m : MultiResponseWriter) (rid : String)
    (o : AddAnnotationOptions) :
    (∃ e, addAnnotationM m rid o = { m with errs := m.errs ++ [e] }) ∨
    (∃ a, addAnnotationM m rid o = { m with annotations := m.annotations ++ [a] }) := by
  unfold addAnnotationM
  cases validateAddAnnotationOptions o with
  | error e => exact Or.inl ⟨e, rfl⟩
  | ok u =>
    by_cases hw : m.written = true
    · simp only [if_pos hw]
      exact Or.inl ⟨errCannotReuse, rfl⟩
    · simp only [if_neg hw]
      cases getFileLocationForAddAnnotationOptions m.fileNameToFileDescriptor
          o.descriptor o.fileName o.sourcePath with
      | error e => exact Or.inl ⟨e, rfl⟩
      | ok fileLocation =>
        dsimp only
        cases getFileLocationForAddAnnotationOptions m.againstFileNameToFileDescriptor
            o.againstDescriptor o.againstFileName o.againstSourcePath with
        | error e => exact Or.inl ⟨e, rfl⟩
        | ok againstFileLocation =>
          dsimp only
          cases newAnnotationM rid o.message fileLocation againstFileLocation with
          | error e => exact Or.inl ⟨e, rfl⟩
          | ok a => exact Or.inr ⟨a, rfl⟩

theorem addAnnotationM_maps (m : MultiResponseWriter) (rid : String)
    (o : AddAnnotationOptions) :
    (addAnnotationM m rid o).fileNameToFileDescriptor = m.fileNameToFileDescriptor ∧
    (addAnnotationM m rid o).againstFileNameToFileDescriptor =
      m.againstFileNameToFileDescriptor ∧
    (addAnnotationM m rid o).written = m.written := by
  rcases addAnnotationM_cases m rid o with ⟨e, he⟩ | ⟨a, ha⟩
  · rw [he]; exact ⟨rfl, rfl, rfl⟩
  · rw [ha]; exact ⟨rfl, rfl, rfl⟩

theorem addAnnotationM_errs_mono (m : MultiResponseWriter) (rid : String)
    (o : AddAnnotationOptions) (h : m.errs ≠ []) :
    (addAnnotationM m rid o).errs ≠ [] := by
  rcases addAnnotationM_cases m rid o with ⟨e, he⟩ | ⟨a, ha⟩
  · rw [he]; simp
  · rw [ha]; exact h

theorem applyAddCalls_errs_mono (calls : List (String × AddAnnotationOptions)) :
    ∀ m : MultiResponseWriter, m.errs ≠ [] → (applyAddCalls m calls).errs ≠ [] := by
  induction calls with
  | nil => intro m h; exact h
  | cons c rest ih =>
    intro m h
    exact ih (addAnnotationM m c.1 c.2) (addAnnotationM_errs_mono m c.1 c.2 h)

/-- A call satisfying `addCallFails` queues an error no matter the state of
the (open or already-written) writer whose indexes match. -/
theorem addAnnotationM_fails (m : MultiResponseWriter) (rid : String)
    (o : AddAnnotationOptions)
    (hf : addCallFails m.fileNameToFileDescriptor
      m.againstFileNameToFileDescriptor rid o) :
    (addAnnotationM m rid o).errs ≠ [] := by
  unfold addAnnotationM
  unfold addCallFails at hf
  cases hv : validateAddAnnotationOptions o with
  | error e => simp
  | ok u =>
    by_cases hw : m.written = true
    · simp [if_pos hw]
    · simp only [if_neg hw]
      cases hl : getFileLocationForAddAnnotationOptions m.fileNameToFileDescriptor
          o.descriptor o.fileName o.sourcePath with
      | error e => simp
      | ok fileLocation =>
        cases ha : getFileLocationForAddAnnotationOptions
            m.againstFileNameToFileDescriptor o.againstDescriptor
            o.againstFileName o.againstSourcePath with
        | error e => simp
        | ok againstFileLocation =>
          have hrid : rid = "" := by
            rcases hf with hf | hf | hf | hf
            · rw [hv] at hf; simp [isErrorE] at hf
            · rw [hl] at hf; simp [isErrorE] at hf
            · rw [ha] at hf; simp [isErrorE] at hf
            · exact hf
          simp [newAnnotationM, hrid]

theorem applyAddCalls_fails (calls : List (String × AddAnnotationOptions)) :
    ∀ m : MultiResponseWriter,
      (∃ c ∈ calls, addCallFails m.fileNameToFileDescriptor
        m.againstFileNameToFileDescriptor c.1 c.2) →
      (applyAddCalls m calls).errs ≠ [] := by
  induction calls with
  | nil => intro m h; simp at h
  | cons c rest ih =>
    intro m h
    rcases h with ⟨c0, hc0, hfail⟩
    rcases List.mem_cons.mp hc0 with hhead | htail
    · subst hhead
      exact applyAddCalls_errs_mono rest _ (addAnnotationM_fails m c0.1 c0.2 hfail)
    · have hmaps := addAnnotationM_maps m c.1 c.2
      refine ih (addAnnotationM m c.1 c.2) ⟨c0, htail, ?_⟩
      rw [hmaps.1, hmaps.2.1]
      exact hfail

/-- C2: When the queued error list is non-empty at finalization,
`toResponse` returns the joined combined error and no Response; hence a
Check call in which any `AddAnnotation` was invalid (conflicting location
options or an unresolvable file name) fails as a whole and never yields a
partial Response. -/
theorem C2_invalid_add_fails_whole_call :
    (∀ m : MultiResponseWriter, m.errs ≠ [] →
      (toResponse m).2 = Except.error (joinErrors m.errs)) ∧
    (∀ (files againstFiles : List FileDescriptorM)
        (calls : List (String × AddAnnotationOptions)),
      (∃ c ∈ calls, addCallFails files againstFiles c.1 c.2) →
      ∃ e, (toResponse (applyAddCalls
        (newMultiResponseWriter files againstFiles) calls)).2 = Except.error e) := by
  constructor
  · intro m h
    simp [toResponse, h]
  · intro files againstFiles calls h
    have hne : (applyAddCalls (newMultiResponseWriter files againstFiles) calls).errs ≠ [] :=
      applyAddCalls_fails calls (newMultiResponseWriter files againstFiles) h
    refine ⟨joinErrors (applyAddCalls (newMultiResponseWriter files againstFiles) calls).errs, ?_⟩
    simp [toResponse, hne]

/-- Witness for C2: a single AddAnnotation naming a file that is not in the
request's file set makes the whole call fail with an error. -/
theorem C2_witness :
    (∃ c ∈ [("RULE1", (⟨"m", none, none, "missing.proto", [], "", []⟩ :
        AddAnnotationOptions))],
      addCallFails [⟨"a.proto", []⟩] [] c.1 c.2) ∧
    ∃ e, (toResponse (applyAddCalls
      (newMultiResponseWriter [⟨"a.proto", []⟩] [])
      [("RULE1", (⟨"m", none, none, "missing.proto", [], "", []⟩ :
        AddAnnotationOptions))])).2 = Except.error e :=
  ⟨by decide, C2_invalid_add_fails_whole_call.2 _ _ _ (by decide)⟩

/-- C8: The writer is one-shot: a successful finalize flips the written
flag; a second finalize then returns the cannot-reuse error rather than a
Response, and a late `AddAnnotation` (with valid options) adds nothing and
queues the cannot-reuse error. -/
theorem C8_writer_is_one_shot (m : MultiResponseWriter)
    (he : m.errs = []) (hw : m.written = false) :
    (toResponse m).2 = Except.ok (newResponse m.annotations) ∧
    (toResponse m).1.written = true ∧
    (toResponse (toResponse m).1).2 = Except.error errCannotReuse ∧
    (∀ rid o, validateAddAnnotationOptions o = Except.ok () →
      (addAnnotationM (toResponse m).1 rid o).annotations =
        (toResponse m).1.annotations ∧
      (addAnnotationM (toResponse m).1 rid o).errs =
        (toResponse m).1.errs ++ [errCannotReuse]) := by
  have h1 : toResponse m =
      ({ m with written := true }, Except.ok (newResponse m.annotations)) := by
    simp [toResponse, he, hw]
  refine ⟨by rw [h1], by rw [h1], ?_, ?_⟩
  · rw [h1]
    simp [toResponse, he]
  · intro rid o hv
    rw [h1]
    unfold addAnnotationM
    rw [hv]
    simp

/-- Witness for C8 at a concrete open writer. -/
theorem C8_witness :
    (toResponse (⟨[], [], [], false, []⟩ : MultiResponseWriter)).2 =
        Except.ok (newResponse []) ∧
      (toResponse (⟨[], [], [], false, []⟩ : MultiResponseWriter)).1.written = true ∧
      (toResponse (toResponse (⟨[], [], [], false, []⟩ :
        MultiResponseWriter)).1).2 = Except.error errCannotReuse ∧
      (∀ rid o, validateAddAnnotationOptions o = Except.ok () →
        (addAnnotationM (toResponse (⟨[], [], [], false, []⟩ :
            MultiResponseWriter)).1 rid o).annotations =
          (toResponse (⟨[], [], [], false, []⟩ : MultiResponseWriter)).1.annotations ∧
        (addAnnotationM (toResponse (⟨[], [], [], false, []⟩ :
            MultiResponseWriter)).1 rid o).errs =
          (toResponse (⟨[], [], [], false, []⟩ : MultiResponseWriter)).1.errs ++
            [errCannotReuse]) :=
  C8_writer_is_one_shot ⟨[], [], [], false, []⟩ rfl rfl

/-- C10: A finalize that fails on a non-empty error list leaves the writer
untouched — it does not transition to written and changes neither list —
so every later finalize returns the same combined error, and the written
transition happens only on the success path. -/
theorem C10_failed_finalize_leaves_state_open (m : MultiResponseWriter)
    (he : m.errs ≠ []) :
    toResponse m = (m, Except.error (joinErrors m.errs)) ∧
    toResponse (toResponse m).1 = (m, Except.error (joinErrors m.errs)) ∧
    (∀ m2 : MultiResponseWriter, (toResponse m2).1.written = true →
      m2.written = false →
      m2.errs = [] ∧ ∃ r, (toResponse m2).2 = Except.ok r) := by
  have h1 : toResponse m = (m, Except.error (joinErrors m.errs)) := by
    simp [toResponse, he]
  refine ⟨h1, by rw [h1]; exact h1, ?_⟩
  intro m2 hw2 hw2f
  by_cases he2 : m2.errs = []
  · by_cases hwr : m2.written
    · rw [hwr] at hw2f; exact absurd hw2f (by simp)
    · refine ⟨he2, newResponse m2.annotations, ?_⟩
      simp [toResponse, he2, hwr]
  · have : (toResponse m2).1 = m2 := by simp [toResponse, he2]
    rw [this] at hw2
    rw [hw2] at hw2f
    exact absurd hw2f (by simp)

/-- Witness for C10 at a concrete writer with one queued error. -/
theorem C10_witness :
    toResponse (⟨[], [], [], false, ["boom"]⟩ : MultiResponseWriter) =
        ((⟨[], [], [], false, ["boom"]⟩ : MultiResponseWriter),
          Except.error (joinErrors ["boom"])) ∧
      toResponse (toResponse (⟨[], [], [], false, ["boom"]⟩ :
          MultiResponseWriter)).1 =
        ((⟨[], [], [], false, ["boom"]⟩ : MultiResponseWriter),
          Except.error (joinErrors ["boom"])) ∧
      (∀ m2 : MultiResponseWriter, (toResponse m2).1.written = true →
        m2.written = false →
        m2.errs = [] ∧ ∃ r, (toResponse m2).2 = Except.ok r) :=
  C10_failed_finalize_leaves_state_open ⟨[], [], [], false, ["boom"]⟩ (by decide)

theorem resolveRuleIDs_ok (rules : List Rule) :
    ∀ ids : List String, (∀ id ∈ ids, (lookupRule rules id).isSome) →
      ∃ rs, resolveRuleIDs rules ids = .ok rs ∧ rs.map (fun r => r.id) = ids := by
  intro ids
  induction ids with
  | nil => intro _; exact ⟨[], rfl, rfl⟩
  | cons id rest ih =>
    intro h
    have hhead := h id (List.mem_cons_self id rest)
    rcases Option.isSome_iff_exists.mp hhead with ⟨r, hr⟩
    rcases ih (fun i hi => h i (List.mem_cons_of_mem id hi)) with ⟨rs, hrs, hmap⟩
    have hrid : r.id = id := by
      have := List.find?_some hr
      exact of_decide_eq_true this
    refine ⟨r :: rs, ?_, ?_⟩
    · simp only [resolveRuleIDs, hr, hrs]
    · simp [hmap, hrid]

theorem resolveRuleIDs_err (rules : List Rule) :
    ∀ (ids : List String) (id : String), id ∈ ids → lookupRule rules id = none →
      ∃ msg, resolveRuleIDs rules ids = .error (.invalidArgument msg) := by
  intro ids
  induction ids with
  | nil => intro id h; simp at h
  | cons id0 rest ih =>
    intro id hmem hnone
    rcases List.mem_cons.mp hmem with hhead | htail
    · subst hhead
      exact ⟨"unknown rule ID: " ++ id, by simp only [resolveRuleIDs, hnone]⟩
    · cases h0 : lookupRule rules id0 with
      | none =>
        exact ⟨"unknown rule ID: " ++ id0, by simp only [resolveRuleIDs, h0]⟩
      | some r =>
        rcases ih id htail hnone with ⟨msg, hmsg⟩
        refine ⟨msg, ?_⟩
        simp only [resolveRuleIDs, h0, hmsg]

/-- C3: A request without explicit rule IDs runs exactly the default rules;
a request with explicit rule IDs resolves each against the rule-ID map
(yielding exactly the requested rules, in order), and any unresolvable ID
fails the call with an invalid-argument error before any handler runs. -/
theorem C3_effective_rule_set (rules : List Rule) (ruleIDs : List String) :
    (ruleIDs = [] → resolveCheckRules rules ruleIDs =
      .ok (rules.filter (fun r => r.isDefault))) ∧
    ((∀ id ∈ ruleIDs, (lookupRule rules id).isSome) → ruleIDs ≠ [] →
      ∃ rs, resolveCheckRules rules ruleIDs = .ok rs ∧
        rs.map (fun r => r.id) = ruleIDs) ∧
    (∀ id ∈ ruleIDs, lookupRule rules id = none →
      ∃ msg, resolveCheckRules rules ruleIDs = .error (.invalidArgument msg) ∧
        ∀ (α : Type) (run : List Rule → α),
          checkModel rules ruleIDs run = .error (.invalidArgument msg)) := by
  refine ⟨?_, ?_, ?_⟩
  · intro h; subst h; rfl
  · intro h hne
    cases ids : ruleIDs with
    | nil => exact absurd ids hne
    | cons id0 rest =>
      rw [ids] at h
      rcases resolveRuleIDs_ok rules (id0 :: rest) h with ⟨rs, hrs, hmap⟩
      exact ⟨rs, hrs, hmap⟩
  · intro id hmem hnone
    cases ids : ruleIDs with
    | nil => rw [ids] at hmem; simp at hmem
    | cons id0 rest =>
      rw [ids] at hmem
      rcases resolveRuleIDs_err rules (id0 :: rest) id hmem hnone with ⟨msg, hmsg⟩
      refine ⟨msg, hmsg, ?_⟩
      intro α run
      simp only [checkModel, resolveCheckRules, hmsg]

/-- Witness for C3 on a two-rule catalog: default selection, explicit
resolution, and an unknown-ID failure. -/
theorem C3_witness :
    (resolveCheckRules
        [⟨"RULE1", [], true, "P.", 1, false, []⟩, ⟨"RULE2", [], false, "P.", 1, false, []⟩]
        [] =
      .ok ([⟨"RULE1", [], true, "P.", 1, false, []⟩,
        ⟨"RULE2", [], false, "P.", 1, false, []⟩].filter (fun r => r.isDefault))) ∧
    (∃ rs, resolveCheckRules
        [⟨"RULE1", [], true, "P.", 1, false, []⟩, ⟨"RULE2", [], false, "P.", 1, false, []⟩]
        ["RULE2"] = .ok rs ∧ rs.map (fun r => r.id) = ["RULE2"]) ∧
    (∃ msg, resolveCheckRules
        [⟨"RULE1", [], true, "P.", 1, false, []⟩, ⟨"RULE2", [], false, "P.", 1, false, []⟩]
        ["NO_SUCH_RULE"] = .error (.invalidArgument msg) ∧
      ∀ (α : Type) (run : List Rule → α),
        checkModel
          [⟨"RULE1", [], true, "P.", 1, false, []⟩, ⟨"RULE2", [], false, "P.", 1, false, []⟩]
          ["NO_SUCH_RULE"] run = .error (.invalidArgument msg)) :=
  ⟨(C3_effective_rule_set _ []).1 rfl,
    (C3_effective_rule_set _ ["RULE2"]).2.1 (by decide) (by decide),
    (C3_effective_rule_set _ ["NO_SUCH_RULE"]).2.2 "NO_SUCH_RULE" (by decide) (by decide)⟩

theorem parallelizeDispatch_done (d : Nat → Bool) (j : Option String)
    (rest : List (Option String)) (i0 : Nat) (h : d i0 = true) :
    parallelizeDispatch d (j :: rest) i0 = ([ctxErr], []) := by
  simp [parallelizeDispatch, h]

theorem parallelizeDispatch_go (d : Nat → Bool) (j : Option String)
    (rest : List (Option String)) (i0 : Nat) (h : d i0 = false) :
    parallelizeDispatch d (j :: rest) i0 =
      (j.toList ++ (parallelizeDispatch d rest (i0 + 1)).1,
        i0 :: (parallelizeDispatch d rest (i0 + 1)).2) := by
  simp [parallelizeDispatch, h]

theorem parallelizeDispatch_started (d : Nat → Bool) :
    ∀ (l : List (Option String)) (i0 : Nat),
      ∀ i ∈ (parallelizeDispatch d l i0).2,
        d i = false ∧ i0 ≤ i ∧
        (∀ e, l.get? (i - i0) = some (some e) → e ∈ (parallelizeDispatch d l i0).1) := by
  intro l
  induction l with
  | nil => intro i0 i hi; simp [parallelizeDispatch] at hi
  | cons j rest ih =>
    intro i0 i hi
    cases hd : d i0 with
    | true =>
      rw [parallelizeDispatch_done d j rest i0 hd] at hi
      simp at hi
    | false =>
      rw [parallelizeDispatch_go d j rest i0 hd] at hi ⊢
      simp only at hi
      rcases List.mem_cons.mp hi with hhead | htail
      · refine ⟨by rw [hhead]; exact hd, by rw [hhead], ?_⟩
        intro e he
        rw [hhead, Nat.sub_self] at he
        simp only [List.get?] at he
        have : j = some e := Option.some.inj he
        rw [this]
        simp
      · rcases ih (i0 + 1) i htail with ⟨h1, h2, h3⟩
        refine ⟨h1, by omega, ?_⟩
        intro e he
        have hgap : i - i0 = (i - (i0 + 1)) + 1 := by omega
        rw [hgap] at he
        simp only [List.get?] at he
        have := h3 e he
        simp only [List.mem_append]
        exact Or.inr this

/-- C4: With an already-cancelled context and at least two jobs,
`Parallelize` returns the context-cancellation error and starts zero jobs;
in general (with two or more jobs) a job is only started at an iteration
where the context was not yet observed done, and every started job is
awaited — its error always reaches the joined result. -/
theorem C4_parallelize_respects_cancellation (d : Nat → Bool)
    (jobs : List (Option String)) (hlen : 2 ≤ jobs.length) :
    ((∀ i, d i = true) → Parallelize d jobs = ([ctxErr], [])) ∧
    (∀ i ∈ (Parallelize d jobs).2, d i = false) ∧
    (∀ i ∈ (Parallelize d jobs).2, ∀ e, jobs.get? i = some (some e) →
      e ∈ (Parallelize d jobs).1) := by
  cases jobs with
  | nil => simp at hlen
  | cons j1 rest =>
    cases rest with
    | nil => simp at hlen
    | cons j2 rest2 =>
      refine ⟨?_, ?_, ?_⟩
      · intro hall
        show parallelizeDispatch d (j1 :: j2 :: rest2) 0 = ([ctxErr], [])
        simp [parallelizeDispatch, hall 0]
      · intro i hi
        exact (parallelizeDispatch_started d (j1 :: j2 :: rest2) 0 i hi).1
      · intro i hi e he
        have h := (parallelizeDispatch_started d (j1 :: j2 :: rest2) 0 i hi).2.2 e
        rw [Nat.sub_zero] at h
        exact h he

/-- Witness for C4: a cancelled context with two pending jobs yields only
the context error and no executed jobs. -/
theorem C4_witness :
    (Parallelize (fun _ => true) [some "job error", none] = ([ctxErr], [])) ∧
    (∀ i ∈ (Parallelize (fun _ => true) [some "job error", none]).2,
      (fun _ : Nat => true) i = false) :=
  ⟨(C4_parallelize_respects_cancellation (fun _ => true) [some "job error", none]
      (by decide)).1 (fun _ => rfl),
    (C4_parallelize_respects_cancellation (fun _ => true) [some "job error", none]
      (by decide)).2.1⟩

theorem chunkAux_congr :
    ∀ (f1 f2 : Nat) (l : List String), l.length ≤ f1 → l.length ≤ f2 →
      chunkAux f1 l = chunkAux f2 l := by
  intro f1
  induction f1 with
  | zero =>
    intro f2 l h1 _
    have : l = [] := List.eq_nil_of_length_eq_zero (by omega)
    subst this
    cases f2 <;> rfl
  | succ f ih =>
    intro f2 l h1 h2
    cases l with
    | nil => cases f2 <;> rfl
    | cons a t =>
      cases f2 with
      | zero => simp at h2
      | succ f2' =>
        simp only [chunkAux]
        have hd : (List.drop checkRuleIDPageSize (a :: t)).length ≤ f := by
          simp only [List.length_drop, List.length_cons] at *
          have : checkRuleIDPageSize = 250 := rfl
          omega
        have hd2 : (List.drop checkRuleIDPageSize (a :: t)).length ≤ f2' := by
          simp only [List.length_drop, List.length_cons] at *
          have : checkRuleIDPageSize = 250 := rfl
          omega
        rw [ih f2' _ hd hd2]

theorem chunkRuleIDs_cons (l : List String) (h : l ≠ []) :
    chunkRuleIDs l = l.take checkRuleIDPageSize :: chunkRuleIDs (l.drop checkRuleIDPageSize) := by
  cases l with
  | nil => exact absurd rfl h
  | cons a t =>
    show chunkAux (a :: t).length (a :: t) = _
    simp only [List.length_cons, chunkAux]
    unfold chunkRuleIDs
    rw [chunkAux_congr t.length (List.drop checkRuleIDPageSize (a :: t)).length
      (List.drop checkRuleIDPageSize (a :: t)) ?_ (le_refl _)]
    simp only [List.length_drop, List.length_cons]
    have : checkRuleIDPageSize = 250 := rfl
    omega

theorem chunkRuleIDs_join (l : List String) : (chunkRuleIDs l).flatten = l := by
  have H : ∀ (n : Nat) (l : List String), l.length = n → (chunkRuleIDs l).flatten = l := by
    intro n
    induction n using Nat.strong_induction_on with
    | _ n ih =>
      intro l hn
      cases l with
      | nil => rfl
      | cons a t =>
        rw [chunkRuleIDs_cons (a :: t) (by simp)]
        simp only [List.flatten_cons]
        have hlt : (List.drop checkRuleIDPageSize (a :: t)).length < n := by
          rw [List.length_drop, show checkRuleIDPageSize = 250 from rfl]
          simp only [List.length_cons] at hn ⊢
          omega
        rw [ih _ hlt _ rfl]
        exact List.take_append_drop checkRuleIDPageSize (a :: t)
  exact H l.length l rfl

theorem chunkRuleIDs_count (l : List String) :
    (chunkRuleIDs l).length = (l.length + 249) / 250 := by
  have H : ∀ (n : Nat) (l : List String), l.length = n →
      (chunkRuleIDs l).length = (l.length + 249) / 250 := by
    intro n
    induction n using Nat.strong_induction_on with
    | _ n ih =>
      intro l hn
      cases l with
      | nil => simp [chunkRuleIDs, chunkAux]
      | cons a t =>
        rw [chunkRuleIDs_cons (a :: t) (by simp)]
        have hlt : (List.drop checkRuleIDPageSize (a :: t)).length < n := by
          rw [List.length_drop, show checkRuleIDPageSize = 250 from rfl]
          simp only [List.length_cons] at hn ⊢
          omega
        simp only [List.length_cons]
        rw [ih _ hlt _ rfl]
        simp only [List.length_drop, List.length_cons]
        have hpg : checkRuleIDPageSize = 250 := rfl
        rw [hpg]
        omega
  exact H l.length l rfl

theorem chunkRuleIDs_sizes (l : List String) :
    ∀ c ∈ chunkRuleIDs l, c.length ≤ 250 ∧ c ≠ [] := by
  have H : ∀ (n : Nat) (l : List String), l.length = n →
      ∀ c ∈ chunkRuleIDs l, c.length ≤ 250 ∧ c ≠ [] := by
    intro n
    induction n using Nat.strong_induction_on with
    | _ n ih =>
      intro l hn
      cases l with
      | nil => intro c hc; simp [chunkRuleIDs, chunkAux] at hc
      | cons a t =>
        intro c hc
        rw [chunkRuleIDs_cons (a :: t) (by simp)] at hc
        rcases List.mem_cons.mp hc with hhead | htail
        · rw [hhead]
          constructor
          · simp only [List.length_take]
            have : checkRuleIDPageSize = 250 := rfl
            omega
          · have h250 : checkRuleIDPageSize = 250 := rfl
            simp [h250]
        · have hlt : (List.drop checkRuleIDPageSize (a :: t)).length < n := by
            rw [List.length_drop, show checkRuleIDPageSize = 250 from rfl]
            simp only [List.length_cons] at hn ⊢
            omega
          exact ih _ hlt _ rfl c htail
  exact H l.length l rfl

/-- C5: `toProtos` emits exactly one wire message when the Request has no
explicit rule IDs; with rule IDs it emits ceil(n/250) messages whose
rule-ID slices are the consecutive chunks of at most 250 IDs in order,
every message carrying the identical full file-descriptor and
against-file-descriptor sets; 561 IDs give three messages of sizes
250, 250, 61. -/
theorem C5_request_chunking (r : RequestM) :
    (r.ruleIDs = [] → toProtos r =
      [⟨r.fileDescriptors, r.againstFileDescriptors, r.options, []⟩]) ∧
    (r.ruleIDs ≠ [] →
      (toProtos r).length = (r.ruleIDs.length + 249) / 250 ∧
      ((toProtos r).map (fun p => p.ruleIds)).flatten = r.ruleIDs ∧
      (∀ p ∈ toProtos r, p.files = r.fileDescriptors ∧
        p.againstFiles = r.againstFileDescriptors ∧ p.options = r.options ∧
        p.ruleIds.length ≤ 250 ∧ p.ruleIds ≠ [])) ∧
    (r.ruleIDs.length = 561 →
      (toProtos r).map (fun p => p.ruleIds.length) = [250, 250, 61]) := by
  refine ⟨?_, ?_, ?_⟩
  · intro h
    simp [toProtos, h]
  · intro h
    refine ⟨?_, ?_, ?_⟩
    · simp only [toProtos, if_neg h, List.length_map]
      exact chunkRuleIDs_count r.ruleIDs
    · simp only [toProtos, if_neg h, List.map_map]
      have hcomp : ((fun p : CheckRequestP => p.ruleIds) ∘
          (fun c => (⟨r.fileDescriptors, r.againstFileDescriptors, r.options, c⟩ :
            CheckRequestP))) = id := rfl
      rw [hcomp, List.map_id]
      exact chunkRuleIDs_join r.ruleIDs
    · intro p hp
      simp only [toProtos, if_neg h, List.mem_map] at hp
      rcases hp with ⟨c, hc, hcp⟩
      have hsz := chunkRuleIDs_sizes r.ruleIDs c hc
      subst hcp
      exact ⟨rfl, rfl, rfl, hsz.1, hsz.2⟩
  · intro h561
    have hne : r.ruleIDs ≠ [] := by
      intro hcon
      rw [hcon] at h561
      simp at h561
    simp only [toProtos, if_neg hne, List.map_map]
    have hcompl : ((fun p : CheckRequestP => p.ruleIds.length) ∘
        (fun c => (⟨r.fileDescriptors, r.againstFileDescriptors, r.options, c⟩ :
          CheckRequestP))) = (fun c : List String => c.length) := rfl
    rw [hcompl]
    have h250 : checkRuleIDPageSize = 250 := rfl
    have hne2 : r.ruleIDs.drop checkRuleIDPageSize ≠ [] := by
      intro hcon
      have := congrArg List.length hcon
      simp [List.length_drop, h561, h250] at this
    have hne3 : (r.ruleIDs.drop checkRuleIDPageSize).drop checkRuleIDPageSize ≠ [] := by
      intro hcon
      have := congrArg List.length hcon
      simp [List.length_drop, h561, h250] at this
    have hnil : ((r.ruleIDs.drop checkRuleIDPageSize).drop
        checkRuleIDPageSize).drop checkRuleIDPageSize = [] := by
      have : (((r.ruleIDs.drop checkRuleIDPageSize).drop
          checkRuleIDPageSize).drop checkRuleIDPageSize).length = 0 := by
        simp [List.length_drop, h561, h250]
      exact List.eq_nil_of_length_eq_zero this
    rw [chunkRuleIDs_cons _ hne, chunkRuleIDs_cons _ hne2, chunkRuleIDs_cons _ hne3,
      hnil]
    simp [chunkRuleIDs, chunkAux, List.length_take, List.length_drop, h561, h250]

/-- Witness for C5: a concrete request with 561 distinct sorted rule IDs
chunks into messages of sizes 250, 250, 61. -/
theorem C5_witness :
    (((⟨[], [], [], (List.range 561).map (fun n => "R" ++ toString (100 + n))⟩ :
        RequestM).ruleIDs).length = 561) ∧
    (toProtos (⟨[], [], [], (List.range 561).map (fun n => "R" ++ toString (100 + n))⟩ :
        RequestM)).map (fun p => p.ruleIds.length) = [250, 250, 61] :=
  ⟨by simp,
    (C5_request_chunking _).2.2 (by simp)⟩

theorem ruleIDToIndex_none (id : String) :
    ∀ rules : List Rule, id ∉ rules.map (fun r => r.id) →
      ruleIDToIndex rules id = none := by
  intro rules
  induction rules with
  | nil => intro _; rfl
  | cons r rest ih =>
    intro h
    simp only [List.map_cons, List.mem_cons] at h
    push_neg at h
    have hne2 : r.id ≠ id := fun hc => h.1 hc.symm
    simp only [ruleIDToIndex, if_neg hne2, ih h.2]
    rfl

theorem ruleIDToIndex_get (rules : List Rule)
    (hnd : (rules.map (fun r => r.id)).Nodup) :
    ∀ (i : Nat) (hi : i < rules.length),
      ruleIDToIndex rules (rules.get ⟨i, hi⟩).id = some i := by
  induction rules with
  | nil => intro i hi; simp at hi
  | cons r rest ih =>
    intro i hi
    simp only [List.map_cons, List.nodup_cons] at hnd
    cases i with
    | zero => simp [ruleIDToIndex]
    | succ i' =>
      have hi' : i' < rest.length := by
        simp only [List.length_cons] at hi
        omega
      have hget : (r :: rest).get ⟨i' + 1, hi⟩ = rest.get ⟨i', hi'⟩ := rfl
      rw [hget]
      have hmem : (rest.get ⟨i', hi'⟩).id ∈ rest.map (fun r => r.id) := by
        refine List.mem_map.mpr ⟨rest.get ⟨i', hi'⟩, ?_, rfl⟩
        exact rest.get_mem _ _
      have hne : r.id ≠ (rest.get ⟨i', hi'⟩).id := by
        intro hc
        exact hnd.1 (hc ▸ hmem)
      simp only [ruleIDToIndex, if_neg hne, ih hnd.2 i' hi']
      rfl

/-- One page starting at a resolved index `i`. -/
theorem getRulesAndNextPageToken_at (rules : List Rule) (pageSize : Int)
    (pageToken : String) (i : Nat)
    (hres : (if pageToken = "" then some 0 else ruleIDToIndex rules pageToken) =
      some i) (hps : 1 ≤ pageSize) :
    getRulesAndNextPageToken rules pageSize pageToken =
      .ok ((rules.drop i).take pageSize.toNat,
        match rules.drop (i + ((rules.drop i).take pageSize.toNat).length) with
        | [] => ""
        | r :: _ => r.id) := by
  unfold getRulesAndNextPageToken
  rw [hres]
  have : (if pageSize = 0 then defaultPageSize else pageSize) = pageSize := by
    rw [if_neg]
    omega
  rw [this]

theorem listAllRulesLoop_from (rules : List Rule) (pageSize : Int)
    (hnd : (rules.map (fun r => r.id)).Nodup)
    (hne : ∀ r ∈ rules, r.id ≠ "") (hps : 1 ≤ pageSize) :
    ∀ (fuel : Nat) (i : Nat) (pageToken : String),
      rules.length - i < fuel →
      (if pageToken = "" then some 0 else ruleIDToIndex rules pageToken) = some i →
      listAllRulesLoop rules pageSize fuel pageToken = .ok (rules.drop i) := by
  intro fuel
  induction fuel with
  | zero => intro i pageToken hf; omega
  | succ fuel ih =>
    intro i pageToken hf hres
    have hpage := getRulesAndNextPageToken_at rules pageSize pageToken i hres hps
    have hptn : 1 ≤ pageSize.toNat := by omega
    simp only [listAllRulesLoop, hpage]
    set taken := (rules.drop i).take pageSize.toNat with htaken
    have htlen : taken.length = min pageSize.toNat (rules.length - i) := by
      rw [htaken, List.length_take, List.length_drop]
    cases hdrop : rules.drop (i + taken.length) with
    | nil =>
      have hfull : rules.length ≤ i + taken.length := by
        have := List.drop_eq_nil_iff.mp hdrop
        omega
      have hlen2 : rules.length - i ≤ pageSize.toNat := by omega
      have h2 : taken = rules.drop i := by
        rw [htaken]
        exact List.take_of_length_le (by rw [List.length_drop]; omega)
      simp [h2]
    | cons r tl =>
      have hi2 : i + taken.length < rules.length := by
        by_contra hc
        rw [List.drop_eq_nil_iff.mpr (by omega)] at hdrop
        cases hdrop
      have hrget : r = rules.get ⟨i + taken.length, hi2⟩ := by
        have := List.drop_eq_getElem_cons hi2
        rw [hdrop] at this
        exact (List.cons.injEq _ _ _ _).mp this |>.1
      have hrne : r.id ≠ "" := hne r (by
        have : r ∈ rules.drop (i + taken.length) := by rw [hdrop]; exact List.mem_cons_self r tl
        exact List.mem_of_mem_drop this)
      rw [if_neg hrne]
      have hresnext : (if r.id = "" then some 0 else ruleIDToIndex rules r.id) =
          some (i + taken.length) := by
        rw [if_neg hrne, hrget]
        exact ruleIDToIndex_get rules hnd (i + taken.length) hi2
      have hmin : taken.length = pageSize.toNat := by
        rw [htlen]
        omega
      have hfnext : rules.length - (i + taken.length) < fuel := by omega
      have hjoin : taken ++ rules.drop (i + taken.length) = rules.drop i := by
        rw [hmin, htaken]
        have hdd : rules.drop (i + pageSize.toNat) =
            (rules.drop i).drop pageSize.toNat := by
          rw [List.drop_drop]
        rw [hdd]
        exact List.take_append_drop pageSize.toNat (rules.drop i)
      rw [ih (i + taken.length) r.id hfnext hresnext]
      dsimp only
      rw [hjoin]

/-- C6: For a fixed catalog with (validated) distinct non-empty rule IDs
and any pageSize at least 1, a List call is deterministic for fixed
arguments, and walking next-page tokens from the empty token until empty
yields every catalog rule exactly once, in catalog order. -/
theorem C6_pagination_exhaustive (rules : List Rule) (pageSize : Int)
    (hnd : (rules.map (fun r => r.id)).Nodup)
    (hne : ∀ r ∈ rules, r.id ≠ "") (hps : 1 ≤ pageSize) :
    (∀ pageToken, getRulesAndNextPageToken rules pageSize pageToken =
      getRulesAndNextPageToken rules pageSize pageToken) ∧
    listAllRules rules pageSize = .ok rules := by
  refine ⟨fun _ => rfl, ?_⟩
  unfold listAllRules
  have := listAllRulesLoop_from rules pageSize hnd hne hps
    (rules.length + 1) 0 "" (by omega) (by rw [if_pos rfl])
  rw [this]
  rfl

/-- Witness for C6: a three-rule catalog read with pageSize 2. -/
theorem C6_witness :
    listAllRules
      [⟨"RULE1", [], true, "P.", 1, false, []⟩,
       ⟨"RULE2", [], true, "P.", 1, false, []⟩,
       ⟨"RULE3", [], false, "P.", 1, false, []⟩] 2 =
    .ok [⟨"RULE1", [], true, "P.", 1, false, []⟩,
       ⟨"RULE2", [], true, "P.", 1, false, []⟩,
       ⟨"RULE3", [], false, "P.", 1, false, []⟩] :=
  (C6_pagination_exhaustive _ 2 (by decide) (by decide) (by decide)).2

/-- C7 counterexample: the code normalizes only pageSize == 0, not every
pageSize ≤ 0: with a one-rule catalog, List(-1, "") returns an empty page
with a resume token while List(250, "") returns the rule with no token. -/
theorem C7_counterexample :
    getRulesAndNextPageToken [⟨"RULE1", [], true, "P.", 1, false, []⟩] (-1) "" ≠
      getRulesAndNextPageToken [⟨"RULE1", [], true, "P.", 1, false, []⟩] 250 "" := by
  decide

/-- C7 (amended): a pageSize of exactly 0 is normalized to the default 250
(identical items and next token); a negative pageSize is not normalized —
the page loop runs zero times, so the call returns an empty item list. -/
theorem C7_zero_pageSize_normalized (rules : List Rule) (pageToken : String) :
    getRulesAndNextPageToken rules 0 pageToken =
      getRulesAndNextPageToken rules 250 pageToken ∧
    (∀ pageSize : Int, pageSize < 0 →
      ∀ out, getRulesAndNextPageToken rules pageSize pageToken = .ok out →
        out.1 = []) := by
  constructor
  · unfold getRulesAndNextPageToken
    norm_num [defaultPageSize]
  · intro pageSize hneg out hout
    unfold getRulesAndNextPageToken at hout
    cases hres : (if pageToken = "" then some 0 else ruleIDToIndex rules pageToken) with
    | none => rw [hres] at hout; cases hout
    | some i =>
      rw [hres] at hout
      have hps : (if pageSize = 0 then defaultPageSize else pageSize) = pageSize := by
        rw [if_neg]
        omega
      have htn : pageSize.toNat = 0 := by omega
      simp only [hps, htn, List.take_zero] at hout
      injection hout with hpair
      rw [← hpair]

/-- Witness for C7's amended statement on a concrete one-rule catalog. -/
theorem C7_witness :
    (getRulesAndNextPageToken [⟨"RULE1", [], true, "P.", 1, false, []⟩] 0 "" =
      getRulesAndNextPageToken [⟨"RULE1", [], true, "P.", 1, false, []⟩] 250 "") ∧
    (([] : List Rule), "RULE1").1 = ([] : List Rule) :=
  ⟨(C7_zero_pageSize_normalized [⟨"RULE1", [], true, "P.", 1, false, []⟩] "").1,
    (C7_zero_pageSize_normalized [⟨"RULE1", [], true, "P.", 1, false, []⟩] "").2
      (-1) (by decide) (([] : List Rule), "RULE1") (by decide)⟩

theorem traverseCheck_ok {α : Type} (f : α → Except String Unit) :
    ∀ l : List α, traverseCheck f l = .ok () → ∀ a ∈ l, f a = .ok () := by
  intro l
  induction l with
  | nil => intro _ a ha; simp at ha
  | cons x rest ih =>
    intro h a ha
    cases hx : f x with
    | error e => rw [traverseCheck, hx] at h; cases h
    | ok u =>
      rw [traverseCheck, hx] at h
      rcases List.mem_cons.mp ha with hhead | htail
      · rw [hhead, hx]
      · exact ih h a htail

theorem lookupByID_sound {α : Type} (idOf : α → String) :
    ∀ (l : List α) (id : String) (x : α),
      lookupByID idOf l id = some x → x ∈ l ∧ idOf x = id := by
  intro l
  induction l with
  | nil => intro id x h; cases h
  | cons y rest ih =>
    intro id x h
    rw [lookupByID] at h
    cases hr : lookupByID idOf rest id with
    | some z =>
      rw [hr] at h
      dsimp only at h
      cases h
      rcases ih id _ hr with ⟨hmem, hid⟩
      exact ⟨List.mem_cons_of_mem y hmem, hid⟩
    | none =>
      rw [hr] at h
      dsimp only at h
      by_cases hy : idOf y = id
      · rw [if_pos hy] at h
        cases h
        exact ⟨List.mem_cons_self _ rest, hy⟩
      · rw [if_neg hy] at h
        cases h

theorem lookupByID_mem {α : Type} (idOf : α → String) :
    ∀ (l : List α) (x : α), x ∈ l → (l.map idOf).Nodup →
      lookupByID idOf l (idOf x) = some x := by
  intro l
  induction l with
  | nil => intro x hx; simp at hx
  | cons y rest ih =>
    intro x hx hnd
    simp only [List.map_cons, List.nodup_cons] at hnd
    rw [lookupByID]
    rcases List.mem_cons.mp hx with hhead | htail
    · have hnone : lookupByID idOf rest (idOf x) = none := by
        cases hl : lookupByID idOf rest (idOf x) with
        | none => rfl
        | some z =>
          rcases lookupByID_sound idOf rest (idOf x) z hl with ⟨hzmem, hzid⟩
          exfalso
          apply hnd.1
          have hyz : idOf y = idOf z := by rw [← hhead, hzid]
          rw [hyz]
          exact List.mem_map.mpr ⟨z, hzmem, rfl⟩
      rw [hnone]
      dsimp only
      rw [if_pos (by rw [hhead])]
      rw [hhead]
    · rw [ih x htail hnd.2]

theorem checkRuleReplacementIDs_ok (all : List RuleSpec) :
    ∀ ids : List String, checkRuleReplacementIDs all ids = .ok () →
      ∀ rid ∈ ids, ∃ rr ∈ all, rr.id = rid ∧ ¬rr.deprecated = true := by
  intro ids
  induction ids with
  | nil => intro _ rid h; simp at h
  | cons id0 rest ih =>
    intro h rid hmem
    rw [checkRuleReplacementIDs] at h
    cases hl : lookupByID (fun r : RuleSpec => r.id) all id0 with
    | none => rw [hl] at h; cases h
    | some rr =>
      rw [hl] at h
      dsimp only at h
      by_cases hd : rr.deprecated = true
      · rw [if_pos hd] at h; cases h
      · rw [if_neg hd] at h
        rcases List.mem_cons.mp hmem with hhead | htail
        · rcases lookupByID_sound _ all id0 rr hl with ⟨hrmem, hrid⟩
          exact ⟨rr, hrmem, by rw [hrid, hhead], hd⟩
        · exact ih h rid htail

theorem checkCategoryReplacementIDs_ok (all : List CategorySpec) :
    ∀ ids : List String, checkCategoryReplacementIDs all ids = .ok () →
      ∀ cid ∈ ids, ∃ cc ∈ all, cc.id = cid ∧ ¬cc.deprecated = true := by
  intro ids
  induction ids with
  | nil => intro _ cid h; simp at h
  | cons id0 rest ih =>
    intro h cid hmem
    rw [checkCategoryReplacementIDs] at h
    cases hl : lookupByID (fun c : CategorySpec => c.id) all id0 with
    | none => rw [hl] at h; cases h
    | some cc =>
      rw [hl] at h
      dsimp only at h
      by_cases hd : cc.deprecated = true
      · rw [if_pos hd] at h; cases h
      · rw [if_neg hd] at h
        rcases List.mem_cons.mp hmem with hhead | htail
        · rcases lookupByID_sound _ all id0 cc hl with ⟨hcmem, hcid⟩
          exact ⟨cc, hcmem, by rw [hcid, hhead], hd⟩
        · exact ih h cid htail

theorem validateRuleSpecReplacements_ok (all : List RuleSpec) (r : RuleSpec)
    (h : validateRuleSpecReplacements all r = .ok ()) :
    (r.replacementIDs ≠ [] → r.deprecated = true) ∧
    (∀ rid ∈ r.replacementIDs, ∃ rr ∈ all, rr.id = rid ∧ ¬rr.deprecated = true) := by
  rw [validateRuleSpecReplacements] at h
  by_cases hg : r.replacementIDs ≠ [] ∧ ¬r.deprecated = true
  · rw [if_pos hg] at h; cases h
  · rw [if_neg hg] at h
    push_neg at hg
    constructor
    · intro hne; exact hg hne
    · exact checkRuleReplacementIDs_ok all r.replacementIDs h

theorem validateCategorySpecReplacements_ok (all : List CategorySpec)
    (c : CategorySpec)
    (h : validateCategorySpecReplacements all c = .ok ()) :
    (c.replacementIDs ≠ [] → c.deprecated = true) ∧
    (∀ cid ∈ c.replacementIDs, ∃ cc ∈ all, cc.id = cid ∧ ¬cc.deprecated = true) := by
  rw [validateCategorySpecReplacements] at h
  by_cases hg : c.replacementIDs ≠ [] ∧ ¬c.deprecated = true
  · rw [if_pos hg] at h; cases h
  · rw [if_neg hg] at h
    push_neg at hg
    constructor
    · intro hne; exact hg hne
    · exact checkCategoryReplacementIDs_ok all c.replacementIDs h

theorem validateRuleSpecEntry_replacements (categoryIDMap : List String)
    (all : List RuleSpec) (r : RuleSpec)
    (h : validateRuleSpecEntry categoryIDMap all r = .ok ()) :
    validateRuleSpecReplacements all r = .ok () := by
  rw [validateRuleSpecEntry] at h
  cases h1 : checkCategoryIDsExist categoryIDMap r.categoryIDs with
  | error e => rw [h1] at h; cases h
  | ok u =>
    rw [h1] at h
    dsimp only at h
    cases h2 : validatePurpose r.id r.purpose with
    | error e => rw [h2] at h; cases h
    | ok u2 =>
      rw [h2] at h
      dsimp only at h
      by_cases h3 : r.ruleType = 0
      · rw [if_pos h3] at h; cases h
      · rw [if_neg h3] at h
        by_cases h4 : ruleTypeKnown r.ruleType = true
        · rw [if_pos h4] at h
          by_cases h5 : ¬r.hasHandler = true
          · rw [if_pos h5] at h; cases h
          · rw [if_neg h5] at h
            by_cases h6 : r.isDefault = true ∧ r.deprecated = true
            · rw [if_pos h6] at h; cases h
            · rw [if_neg h6] at h
              exact h
        · rw [if_neg h4] at h; cases h

theorem validateCategorySpecEntry_replacements (categoryIDForRulesMap : List String)
    (all : List CategorySpec) (c : CategorySpec)
    (h : validateCategorySpecEntry categoryIDForRulesMap all c = .ok ()) :
    validateCategorySpecReplacements all c = .ok () := by
  rw [validateCategorySpecEntry] at h
  cases h1 : validatePurpose c.id c.purpose with
  | error e => rw [h1] at h; cases h
  | ok u =>
    rw [h1] at h
    dsimp only at h
    cases h2 : validateCategorySpecReplacements all c with
    | error e => rw [h2] at h; cases h
    | ok u2 => cases u2; rfl

theorem validateRuleSpecs_replacements (ruleSpecs : List RuleSpec)
    (categoryIDMap : List String)
    (h : validateRuleSpecs ruleSpecs categoryIDMap = .ok ()) :
    ∀ r ∈ ruleSpecs, validateRuleSpecReplacements ruleSpecs r = .ok () := by
  rw [validateRuleSpecs] at h
  cases h1 : validateNoDuplicateRuleIDs (ruleSpecs.map (fun r => r.id)) with
  | error e => rw [h1] at h; cases h
  | ok u =>
    rw [h1] at h
    dsimp only at h
    cases h2 : traverseCheck (fun r => validateID r.id) ruleSpecs with
    | error e => rw [h2] at h; cases h
    | ok u2 =>
      rw [h2] at h
      dsimp only at h
      intro r hr
      exact validateRuleSpecEntry_replacements categoryIDMap ruleSpecs r
        (traverseCheck_ok _ ruleSpecs h r hr)

theorem validateCategorySpecs_replacements (categorySpecs : List CategorySpec)
    (ruleSpecs : List RuleSpec)
    (h : validateCategorySpecs categorySpecs ruleSpecs = .ok ()) :
    ∀ c ∈ categorySpecs, validateCategorySpecReplacements categorySpecs c = .ok () := by
  rw [validateCategorySpecs] at h
  cases h1 : validateNoDuplicateCategoryIDs (categorySpecs.map (fun c => c.id)) with
  | error e => rw [h1] at h; cases h
  | ok u =>
    rw [h1] at h
    dsimp only at h
    cases h2 : traverseCheck (fun c => validateID c.id) categorySpecs with
    | error e => rw [h2] at h; cases h
    | ok u2 =>
      rw [h2] at h
      dsimp only at h
      intro c hc
      exact validateCategorySpecEntry_replacements _ categorySpecs c
        (traverseCheck_ok _ categorySpecs h c hc)

theorem ValidateSpec_ok_parts (spec : Spec) (h : ValidateSpec spec = .ok ()) :
    validateRuleSpecs spec.rules (spec.categories.map (fun c => c.id)) = .ok () ∧
    validateCategorySpecs spec.categories spec.rules = .ok () := by
  rw [ValidateSpec] at h
  by_cases h0 : spec.rules = []
  · rw [if_pos h0] at h; cases h
  · rw [if_neg h0] at h
    cases h1 : validateNoDuplicateRuleOrCategoryIDs
        (spec.rules.map (fun r => r.id) ++ spec.categories.map (fun c => c.id)) with
    | error e => rw [h1] at h; cases h
    | ok u =>
      rw [h1] at h
      dsimp only at h
      cases h2 : validateRuleSpecs spec.rules (spec.categories.map (fun c => c.id)) with
      | error e => rw [h2] at h; cases h
      | ok u2 =>
        cases u2
        rw [h2] at h
        dsimp only at h
        exact ⟨rfl, h⟩

/-- C9: `ValidateSpec` fails whenever some non-deprecated rule or category
spec carries replacement IDs, and whenever some replacement ID does not
name an existing, non-deprecated spec of the same kind; and a Spec in which
no rule or category violates these conditions passes the replacement checks
themselves (other checks may still fail). -/
theorem C9_replacement_validation :
    (∀ spec : Spec,
      ((∃ r ∈ spec.rules, ¬r.deprecated = true ∧ r.replacementIDs ≠ []) ∨
        (∃ c ∈ spec.categories, ¬c.deprecated = true ∧ c.replacementIDs ≠ []) ∨
        (∃ r ∈ spec.rules, ∃ rid ∈ r.replacementIDs,
          ¬∃ rr ∈ spec.rules, rr.id = rid ∧ ¬rr.deprecated = true) ∨
        (∃ c ∈ spec.categories, ∃ cid ∈ c.replacementIDs,
          ¬∃ cc ∈ spec.categories, cc.id = cid ∧ ¬cc.deprecated = true)) →
      ∃ e, ValidateSpec spec = .error e) ∧
    (∀ spec : Spec,
      (spec.rules.map (fun r => r.id)).Nodup →
      (spec.categories.map (fun c => c.id)).Nodup →
      (∀ r ∈ spec.rules, (r.replacementIDs ≠ [] → r.deprecated = true) ∧
        ∀ rid ∈ r.replacementIDs, ∃ rr ∈ spec.rules, rr.id = rid ∧ ¬rr.deprecated = true) →
      (∀ c ∈ spec.categories, (c.replacementIDs ≠ [] → c.deprecated = true) ∧
        ∀ cid ∈ c.replacementIDs, ∃ cc ∈ spec.categories, cc.id = cid ∧
          ¬cc.deprecated = true) →
      (∀ r ∈ spec.rules, validateRuleSpecReplacements spec.rules r = .ok ()) ∧
      (∀ c ∈ spec.categories, validateCategorySpecReplacements spec.categories c =
        .ok ())) := by
  constructor
  · intro spec hbad
    cases hv : ValidateSpec spec with
    | error e => exact ⟨e, rfl⟩
    | ok u =>
      exfalso
      cases u
      have hparts := ValidateSpec_ok_parts spec hv
      have hrules := validateRuleSpecs_replacements _ _ hparts.1
      have hcats := validateCategorySpecs_replacements _ _ hparts.2
      rcases hbad with ⟨r, hr, hnd, hne⟩ | ⟨c, hc, hnd, hne⟩ |
          ⟨r, hr, rid, hrid, hno⟩ | ⟨c, hc, cid, hcid, hno⟩
      · exact hnd ((validateRuleSpecReplacements_ok _ _ (hrules r hr)).1 hne)
      · exact hnd ((validateCategorySpecReplacements_ok _ _ (hcats c hc)).1 hne)
      · exact hno ((validateRuleSpecReplacements_ok _ _ (hrules r hr)).2 rid hrid)
      · exact hno ((validateCategorySpecReplacements_ok _ _ (hcats c hc)).2 cid hcid)
  · intro spec hndr hndc hrcond hccond
    constructor
    · intro r hr
      rw [validateRuleSpecReplacements]
      rw [if_neg (by
        intro hcon
        exact hcon.2 ((hrcond r hr).1 hcon.1))]
      have hloop : ∀ ids : List String,
          (∀ rid ∈ ids, ∃ rr ∈ spec.rules, rr.id = rid ∧ ¬rr.deprecated = true) →
          checkRuleReplacementIDs spec.rules ids = .ok () := by
        intro ids
        induction ids with
        | nil => intro _; rfl
        | cons id0 rest ih =>
          intro hall
          rcases hall id0 (List.mem_cons_self id0 rest) with ⟨rr, hrrmem, hrrid, hrrd⟩
          have hl : lookupByID (fun r : RuleSpec => r.id) spec.rules id0 = some rr := by
            rw [← hrrid]
            exact lookupByID_mem _ spec.rules rr hrrmem hndr
          rw [checkRuleReplacementIDs, hl]
          dsimp only
          rw [if_neg hrrd]
          exact ih (fun rid hrid => hall rid (List.mem_cons_of_mem id0 hrid))
      exact hloop r.replacementIDs (hrcond r hr).2
    · intro c hc
      rw [validateCategorySpecReplacements]
      rw [if_neg (by
        intro hcon
        exact hcon.2 ((hccond c hc).1 hcon.1))]
      have hloop : ∀ ids : List String,
          (∀ cid ∈ ids, ∃ cc ∈ spec.categories, cc.id = cid ∧ ¬cc.deprecated = true) →
          checkCategoryReplacementIDs spec.categories ids = .ok () := by
        intro ids
        induction ids with
        | nil => intro _; rfl
        | cons id0 rest ih =>
          intro hall
          rcases hall id0 (List.mem_cons_self id0 rest) with ⟨cc, hccmem, hccid, hccd⟩
          have hl : lookupByID (fun c : CategorySpec => c.id) spec.categories id0 =
              some cc := by
            rw [← hccid]
            exact lookupByID_mem _ spec.categories cc hccmem hndc
          rw [checkCategoryReplacementIDs, hl]
          dsimp only
          rw [if_neg hccd]
          exact ih (fun cid hcid => hall cid (List.mem_cons_of_mem id0 hcid))
      exact hloop c.replacementIDs (hccond c hc).2

/-- Witness for C9: a spec with a non-deprecated rule carrying a
replacement ID fails validation, and a clean deprecated/replacement pair
passes the replacement checks. -/
theorem C9_witness :
    (∃ e, ValidateSpec
      ⟨[⟨"RULE1", [], false, "P.", 1, false, ["RULE2"], true⟩,
        ⟨"RULE2", [], true, "P.", 1, false, [], true⟩], []⟩ = .error e) ∧
    (∀ r ∈ (⟨[⟨"OLD_RULE", [], false, "P.", 1, true, ["NEW_RULE"], true⟩,
        ⟨"NEW_RULE", [], true, "P.", 1, false, [], true⟩], []⟩ : Spec).rules,
      validateRuleSpecReplacements
        (⟨[⟨"OLD_RULE", [], false, "P.", 1, true, ["NEW_RULE"], true⟩,
          ⟨"NEW_RULE", [], true, "P.", 1, false, [], true⟩], []⟩ : Spec).rules r =
        .ok ()) :=
  ⟨C9_replacement_validation.1 _
      (Or.inl ⟨⟨"RULE1", [], false, "P.", 1, false, ["RULE2"], true⟩, by decide,
        by decide, by decide⟩),
    (C9_replacement_validation.2 _
      (by decide) (by decide) (by decide) (by decide)).1⟩

end BufCheck
